import Mathlib

/-
Verification development for the cio repository.

The embedding below models, from the Rust sources:
  - src/cio/src/finance.rs : the software-vendor reconciliation routine
    (refresh_software_vendors), its record type NewSoftwareVendor, the
    serde forgiving decode, and the name-dispatched enrichment calls;
  - src/cio/src/slack.rs   : post_to_channel;
  - src/src/utils.rs       : write_file, read_config_from_files,
    get_rfds_from_repo.

External collaborators (HTTP clients, the file system, the TOML and CSV
decoders) are modelled as explicit inputs: each network call becomes a
value of type Except RunError carried in an environment record, the file
system becomes an explicit state value, and the decoders become function
parameters.  A Rust unwrap or panic on such a call is modelled as
propagating the error (the routine aborts).

Machine integers: the i32 field users receives values produced by
`as i32` casts from usize lengths; these casts are modelled exactly by
i32ofNat (truncation to 32 bits, reinterpreted as a signed value).
The f32 pricing fields are never computed with in the modelled code
(only decoded, defaulted and copied), so they are carried as Rat values.
-/

/-- Error raised by an external API call, a decode, or a failed lookup;
in the Rust source every such error is hit with unwrap and aborts the
whole run. -/
inductive RunError where
  | apiFailure (msg : String)
deriving DecidableEq, Repr

deriving instance DecidableEq for Except

/-- NewSoftwareVendor from src/cio/src/finance.rs (lines 28-57): the
decoded shape of one Airtable software-vendor record.  Field names and
order follow the Rust struct. -/
structure NewSoftwareVendor where
  name : String
  status : String
  description : String
  website : String
  has_okta_integration : Bool
  used_purely_for_api : Bool
  pay_as_you_go : Bool
  pay_as_you_go_pricing_description : String
  software_licenses : Bool
  cost_per_user_per_month : Rat
  users : Int
  flat_cost_per_month : Rat
  total_cost_per_month : Rat
  groups : List String
deriving DecidableEq, Repr

/-- A raw Airtable field map for one vendor record: every field may be
absent.  This is the input of the serde decode; a field that is present
carries its value, an absent field is none. -/
structure RawVendorFields where
  name : Option String := none
  status : Option String := none
  description : Option String := none
  website : Option String := none
  has_okta_integration : Option Bool := none
  used_purely_for_api : Option Bool := none
  pay_as_you_go : Option Bool := none
  pay_as_you_go_pricing_description : Option String := none
  software_licenses : Option Bool := none
  cost_per_user_per_month : Option Rat := none
  users : Option Int := none
  flat_cost_per_month : Option Rat := none
  total_cost_per_month : Option Rat := none
  groups : Option (List String) := none
deriving DecidableEq, Repr

/-- The serde decode of a raw field map, following the serde attributes
on NewSoftwareVendor: every field carries a serde default attribute, so
an absent field decodes to the default value of its type (empty string,
false, zero, empty list) and decoding never fails. -/
def decodeVendor (r : RawVendorFields) : NewSoftwareVendor where
  name := r.name.getD ""
  status := r.status.getD ""
  description := r.description.getD ""
  website := r.website.getD ""
  has_okta_integration := r.has_okta_integration.getD false
  used_purely_for_api := r.used_purely_for_api.getD false
  pay_as_you_go := r.pay_as_you_go.getD false
  pay_as_you_go_pricing_description := r.pay_as_you_go_pricing_description.getD ""
  software_licenses := r.software_licenses.getD false
  cost_per_user_per_month := r.cost_per_user_per_month.getD 0
  users := r.users.getD 0
  flat_cost_per_month := r.flat_cost_per_month.getD 0
  total_cost_per_month := r.total_cost_per_month.getD 0
  groups := r.groups.getD []

/-- The empty raw field map (every field absent). -/
def RawVendorFields.empty : RawVendorFields := {}

/-- SoftwareVendor: the database row generated from NewSoftwareVendor by
the db macro; it carries the vendor fields plus the Airtable linkage
column airtable_record_id.  (The serial id column plays no role in the
modelled code and is omitted.) -/
structure SoftwareVendor where
  fields : NewSoftwareVendor
  airtable_record_id : String
deriving DecidableEq, Repr

/-- One element of the Airtable list_records result: airtable_api record
with its fields already serde-decoded into NewSoftwareVendor (the
`vendor_record.fields.into()` step of the source). -/
structure VendorRecord where
  id : String
  fields : NewSoftwareVendor
deriving DecidableEq, Repr

/-- One entry of the Slack billable_info response; the source reads only
the billing_active flag of each entry, so only that flag is modelled. -/
structure BillableInfo where
  billing_active : Bool
deriving DecidableEq, Repr

/-- The responses of the external enrichment sources for one run.  Each
field models the outcome of the corresponding awaited call in
refresh_software_vendors; list-users style responses that the source
only takes the length of are abstracted to that length. -/
structure Env where
  /-- github.org(github_org()).get(): the filled_seats field of the org plan. -/
  githubFilledSeats : Except RunError Int
  /-- okta.list_users(): length of the returned user list. -/
  oktaUsers : Except RunError Nat
  /-- gsuite.list_users(): length of the returned user list. -/
  gsuiteUsers : Except RunError Nat
  /-- slack.billable_info(): map from user id to billable info. -/
  slackBillable : Except RunError (List (String × BillableInfo))
  /-- Group::get_from_db(db, "all") followed by
  get_existing_airtable_record(): length of the members field; either
  lookup can fail, which the source unwraps. -/
  groupAllMembers : Except RunError Nat

/-- Which enrichment source was called while processing one record;
used to state that a record with no matching name makes no call. -/
inductive EnrichCall where
  | github
  | okta
  | gsuite
  | slack
  | groupAll
deriving DecidableEq, Repr

/-- A Rust `as i32` cast from an unsigned length: truncate to 32 bits and
reinterpret as a signed value. -/
def i32ofNat (n : Nat) : Int :=
  if n % 2 ^ 32 < 2 ^ 31 then ((n % 2 ^ 32 : Nat) : Int)
  else ((n % 2 ^ 32 : Nat) : Int) - 2 ^ 32

/-- The count accumulated over the Slack billable_info response: the
number of entries whose billing_active flag is true (finance.rs lines
106-111). -/
def slackActiveCount (users : List (String × BillableInfo)) : Nat :=
  (users.filter (fun p => p.2.billing_active)).length

/-- The names that the enrichment dispatch special-cases
(finance.rs lines 88-122). -/
def specialVendorNames : List String :=
  ["GitHub", "Okta", "Google Workspace", "Slack", "Airtable", "Brex", "Gusto", "Expensify"]

/-- The enrichment dispatch of refresh_software_vendors (finance.rs
lines 88-122): branch on the vendor name and overwrite the users field
from the matching external source.  The Rust source uses five separate
if statements, but their conditions compare the same unmodified name
against distinct constants, so at most one branch runs and the chain
below is equivalent.  The returned list records which enrichment source
was called. -/
def enrichVendor (env : Env) (v : NewSoftwareVendor) :
    Except RunError (NewSoftwareVendor × List EnrichCall) :=
  if v.name = "GitHub" then
    match env.githubFilledSeats with
    | .error e => .error e
    | .ok n => .ok ({ v with users := n }, [EnrichCall.github])
  else if v.name = "Okta" then
    match env.oktaUsers with
    | .error e => .error e
    | .ok n => .ok ({ v with users := i32ofNat n }, [EnrichCall.okta])
  else if v.name = "Google Workspace" then
    match env.gsuiteUsers with
    | .error e => .error e
    | .ok n => .ok ({ v with users := i32ofNat n }, [EnrichCall.gsuite])
  else if v.name = "Slack" then
    match env.slackBillable with
    | .error e => .error e
    | .ok users => .ok ({ v with users := i32ofNat (slackActiveCount users) }, [EnrichCall.slack])
  else if v.name = "Airtable" ∨ v.name = "Brex" ∨ v.name = "Gusto" ∨ v.name = "Expensify" then
    match env.groupAllMembers with
    | .error e => .error e
    | .ok n => .ok ({ v with users := i32ofNat n }, [EnrichCall.groupAll])
  else
    .ok (v, [])

/-- The local store of software-vendor rows, keyed by the natural key
name. -/
abbrev Store := List SoftwareVendor

/-- Modelled from the spec: the upsert_in_db operation generated by the
db macro (not under src/), following spec section 4.1 step 4: match by
the natural key name; if a row with that key exists, update its non-key
fields in place, otherwise insert a new row (whose linkage column starts
empty).  Returns the resulting row together with the updated store. -/
def upsert_in_db (v : NewSoftwareVendor) : Store → SoftwareVendor × Store
  | [] => (⟨v, ""⟩, [⟨v, ""⟩])
  | r :: rest =>
    if r.fields.name = v.name then
      (⟨v, r.airtable_record_id⟩, ⟨v, r.airtable_record_id⟩ :: rest)
    else
      let p := upsert_in_db v rest
      (p.1, r :: p.2)

/-- Modelled from the spec: the update operation of the local store (the
db macro generated method db_vendor.update, not under src/), following
spec section 6: write the given row back over the stored row with the
same natural key. -/
def updateDb (row : SoftwareVendor) : Store → Store
  | [] => []
  | r :: rest =>
    if r.fields.name = row.fields.name then row :: rest
    else r :: updateDb row rest

/-- Processing of one listed record inside the loop of
refresh_software_vendors (finance.rs lines 85-131): enrich the decoded
fields, upsert into the store, populate an empty linkage column from
the remote record id, and persist the row. -/
def processRecord (env : Env) (s : Store) (rec : VendorRecord) :
    Except RunError (Store × List EnrichCall) :=
  match enrichVendor env rec.fields with
  | .error e => .error e
  | .ok (v2, calls) =>
    let p := upsert_in_db v2 s
    let row2 :=
      if p.1.airtable_record_id = "" then
        { p.1 with airtable_record_id := rec.id }
      else p.1
    .ok (updateDb row2 p.2, calls)

/-- The record loop of refresh_software_vendors: process the listed
records in order; the first failing record aborts the run (its unwrap
panics), leaving the store with exactly the writes already performed. -/
def runSync (env : Env) : List VendorRecord → Store → Store × Option RunError
  | [], s => (s, none)
  | rec :: rest, s =>
    match processRecord env s rec with
    | .error e => (s, some e)
    | .ok p => runSync env rest p.1

/-- refresh_software_vendors (finance.rs lines 70-132), as a function of
the remote listing returned by list_records, the enrichment responses,
and the initial store state. -/
def refresh_software_vendors (env : Env) (listing : List VendorRecord) (db : Store) :
    Store × Option RunError :=
  runSync env listing db

/-! ### Notifier: post_to_channel (src/cio/src/slack.rs lines 29-39) -/

/-- A transport-level failure of the HTTP client: the send call itself
failing, or the read of the response body failing.  In the source both
are hit with unwrap, so both abort. -/
inductive NetError where
  | connectionFailed
  | bodyReadFailed
deriving DecidableEq, Repr

/-- An HTTP response as post_to_channel observes it: a status code and
the (fallible) read of the response body text. -/
structure HttpResponse where
  status : Nat
  text : Except NetError String
deriving DecidableEq, Repr

/-- The log line printed for a failed webhook post (slack.rs line 36). -/
def slackFailLog (url : String) (status : Nat) (body : String) : String :=
  "posting to slack webhook (" ++ url ++ ") failed, status: " ++ toString status
    ++ " | resp: " ++ body

/-- post_to_channel (slack.rs lines 29-39): send the payload, unwrap the
send result, then match on the status: 200 returns silently, any other
status prints a log line (reading the body with unwrap) and also
returns.  The result is the list of printed log lines; an error value
models a panic of one of the unwraps. -/
def post_to_channel (url : String) (v : String) (sendResult : Except NetError HttpResponse) :
    Except NetError (List String) :=
  match sendResult with
  | .error e => .error e
  | .ok resp =>
    if resp.status = 200 then .ok []
    else
      match resp.text with
      | .error e => .error e
      | .ok body =>
        let _ := v
        .ok [slackFailLog url resp.status body]

/-! ### Config and file utilities (src/src/utils.rs) -/

/-- The error cases of read_config_from_files: no file argument given
(panic), a file read failing (expect), or the TOML decode failing
(unwrap). -/
inductive ConfigError where
  | noFiles
  | readFailed
  | decodeFailed
deriving DecidableEq, Repr

/-- Reading and concatenating the given files in argument order
(utils.rs lines 44-53): each file is read with expect, so the first
unreadable file aborts; the bodies are appended left to right. -/
def readAllFiles (fs : String → Option String) : List String → Except ConfigError String
  | [] => .ok ""
  | f :: rest =>
    match fs f with
    | none => .error ConfigError.readFailed
    | some body =>
      match readAllFiles fs rest with
      | .error e => .error e
      | .ok restContents => .ok (body ++ restContents)

/-- Concatenation of a list of strings in order. -/
def concatAll : List String → String
  | [] => ""
  | b :: bs => b ++ concatAll bs

/-- read_config_from_files (utils.rs lines 35-59): the file-path
argument mirrors clap values_of and is none when no file was specified
(which the source answers with a panic); otherwise all files are read
and concatenated in argument order and the concatenation is decoded as
one TOML document by the external decoder dec (unwrap on failure). -/
def read_config_from_files {Cfg : Type} (dec : String → Option Cfg)
    (fs : String → Option String) : Option (List String) → Except ConfigError Cfg
  | none => .error ConfigError.noFiles
  | some files =>
    match readAllFiles fs files with
    | .error e => .error e
    | .ok contents =>
      match dec contents with
      | none => .error ConfigError.decodeFailed
      | some c => .ok c

/-- The file-system state visible to write_file: the set of existing
directories and the contents of existing files. -/
structure FileSystem where
  dirs : List (List String)
  files : List (List String × String)
deriving DecidableEq

/-- All the prefixes of a directory path, root included: the
directories that fs create_dir_all guarantees to exist afterwards. -/
def ancestors (d : List String) : List (List String) :=
  (List.range (d.length + 1)).map (fun n => d.take n)

/-- fs create_dir_all (utils.rs line 25): create the directory and every
missing ancestor. -/
def create_dir_all (fsys : FileSystem) (d : List String) : FileSystem :=
  { fsys with
    dirs := fsys.dirs ++ (ancestors d).filter (fun p => decide (p ∉ fsys.dirs)) }

/-- Store contents under a path, overwriting an existing entry
(fs File::create followed by write_all, utils.rs lines 28-29). -/
def setFileContents : List (List String × String) → List String → String →
    List (List String × String)
  | [], p, c => [(p, c)]
  | (q, old) :: rest, p, c =>
    if q = p then (p, c) :: rest else (q, old) :: setFileContents rest p c

/-- Look up the contents stored under a path. -/
def lookupFile : List (List String × String) → List String → Option String
  | [], _ => none
  | (q, c) :: rest, p => if q = p then some c else lookupFile rest p

/-- write_file (utils.rs lines 23-32): create every missing parent
directory of the path, then create the file and write the contents,
overwriting any existing file.  A path without a parent (the empty
path) makes file.parent() return None and the source unwrap panic,
modelled as none. -/
def write_file (fsys : FileSystem) (file : List String) (contents : String) :
    Option FileSystem :=
  match file with
  | [] => none
  | _ :: _ =>
    let fsys1 := create_dir_all fsys file.dropLast
    some { fsys1 with files := setFileContents fsys1.files file contents }

/-! ### RFD loader: get_rfds_from_repo (src/src/utils.rs lines 114-154) -/

/-- RFD record from src/src/core.rs as constructed at utils.rs lines
143-149 (one field per CSV column used). -/
structure RFD where
  number : String
  title : String
  link : String
  state : String
  discussion : String
deriving DecidableEq, Repr

/-- The abort causes of get_rfds_from_repo: the fetch of the CSV file
failing, the bytes not being UTF-8, a CSV record failing to parse, a
record shorter than the five indexed columns (an index panic), or the
leading column not parsing as an i32. -/
inductive RfdError where
  | fetchFailed
  | notUtf8
  | csvParseError
  | shortRecord
  | keyNotNumeric
deriving DecidableEq, Repr

/-- The numeric value of a nonempty all-digit character list. -/
def digitsVal (cs : List Char) : Option Nat :=
  if cs = [] then none
  else if cs.all Char.isDigit then
    some (cs.foldl (fun acc c => acc * 10 + (c.toNat - '0'.toNat)) 0)
  else none

/-- Rust str::parse::<i32>: an optional single leading + or - sign, then
one or more ASCII digits, with the value required to fit in a signed
32-bit integer; anything else is an error. -/
def parse_i32 (s : String) : Option Int :=
  match s.toList with
  | '+' :: rest => (digitsVal rest).bind (fun n => if n ≤ 2 ^ 31 - 1 then some (n : Int) else none)
  | '-' :: rest => (digitsVal rest).bind (fun n => if n ≤ 2 ^ 31 then some (-(n : Int)) else none)
  | cs => (digitsVal cs).bind (fun n => if n ≤ 2 ^ 31 - 1 then some (n : Int) else none)

/-- Insertion into a BTreeMap viewed as an association list sorted by
key: the entry is placed at its ordered position and replaces an entry
with an equal key. -/
def btreeInsert (k : Int) (v : RFD) : List (Int × RFD) → List (Int × RFD)
  | [] => [(k, v)]
  | (k', v') :: t =>
    if k < k' then (k, v) :: (k', v') :: t
    else if k = k' then (k, v) :: t
    else (k', v') :: btreeInsert k v t

/-- Processing of one CSV record in the loop of get_rfds_from_repo
(utils.rs lines 138-151), following the evaluation order of the source:
unwrap the record (CSV parse error aborts), index column 0 (an index
out of bounds panics), parse it as i32 (unwrap), then index columns 1
to 4 to build the RFD, and insert into the map. -/
def rfdRowStep (m : List (Int × RFD)) (r : Except Unit (List String)) :
    Except RfdError (List (Int × RFD)) :=
  match r with
  | .error _ => .error RfdError.csvParseError
  | .ok rec =>
    match rec.get? 0 with
    | none => .error RfdError.shortRecord
    | some c0 =>
      match parse_i32 c0 with
      | none => .error RfdError.keyNotNumeric
      | some k =>
        match rec.get? 1, rec.get? 2, rec.get? 3, rec.get? 4 with
        | some c1, some c2, some c3, some c4 =>
          .ok (btreeInsert k ⟨c0, c1, c2, c3, c4⟩ m)
        | _, _, _, _ => .error RfdError.shortRecord

/-- The record loop of get_rfds_from_repo: fold rfdRowStep over the CSV
records, aborting at the first failure. -/
def rfdsFold : List (Except Unit (List String)) → List (Int × RFD) →
    Except RfdError (List (Int × RFD))
  | [], m => .ok m
  | r :: rest, m =>
    match rfdRowStep m r with
    | .error e => .error e
    | .ok m2 => rfdsFold rest m2

/-- get_rfds_from_repo (utils.rs lines 114-154): unwrap the fetched file
contents, decode them as UTF-8 (unwrap; a none models invalid UTF-8),
run the external CSV reader over the string (csvRecords yields the
record iterator results), and build the BTreeMap from the records.  The
fetch and the CSV reader are external collaborators passed as inputs. -/
def get_rfds_from_repo (fetched : Except RfdError (Option String))
    (csvRecords : String → List (Except Unit (List String))) :
    Except RfdError (List (Int × RFD)) :=
  match fetched with
  | .error e => .error e
  | .ok none => .error RfdError.notUtf8
  | .ok (some s) => rfdsFold (csvRecords s) []

/-- The key of a data row as the source computes it, defaulted for
stating theorems (under the success hypotheses it equals the parsed
leading column). -/
def rowKey (rec : List String) : Int := (parse_i32 ((rec.get? 0).getD "")).getD 0

/-- The RFD built from the first five columns of a data row, with
defaults, for stating theorems about the success case. -/
def rowRFD (rec : List String) : RFD :=
  ⟨(rec.get? 0).getD "", (rec.get? 1).getD "", (rec.get? 2).getD "",
    (rec.get? 3).getD "", (rec.get? 4).getD ""⟩

/-- The key of a CSV reader result, for stating distinctness of keys
across rows. -/
def rowResultKey : Except Unit (List String) → Int
  | .error _ => 0
  | .ok rec => rowKey rec

/-- A sample CSV reader used to exercise the RFD loader on concrete
content: one input with a record that fails to parse, one with a
non-numeric leading key, and one well-formed two-record input. -/
def sampleCsvRows (s : String) : List (Except Unit (List String)) :=
  if s = "bad" then [Except.error ()]
  else if s = "nonnum" then [Except.ok ["x", "t", "l", "st", "d"]]
  else [Except.ok ["2", "t2", "l2", "s2", "d2"], Except.ok ["1", "t1", "l1", "s1", "d1"]]

/-! ### Helper functions for the reconciliation proofs -/

/-- The rows of a store holding a given natural key. -/
def keyFilter (k : String) (s : Store) : Store :=
  s.filter (fun r => r.fields.name == k)

/-- The effect of processing one record on the rows of its own key:
an empty group gains a fresh row with linkage set to the record id, a
nonempty group has its first row rewritten (fields replaced, an empty
linkage populated from the record id). -/
def stepKval (ev : NewSoftwareVendor) (rid : String) : List SoftwareVendor → List SoftwareVendor
  | [] => [⟨ev, rid⟩]
  | h :: t => ⟨ev, if h.airtable_record_id = "" then rid else h.airtable_record_id⟩ :: t

/-- The per-key trace of a run: the records of one key applied in order
through stepKval, aborting when an enrichment fails. -/
def runK (env : Env) : List VendorRecord → List SoftwareVendor →
    Except RunError (List SoftwareVendor)
  | [], x => .ok x
  | r :: t, x =>
    match enrichVendor env r.fields with
    | .error e => .error e
    | .ok p => runK env t (stepKval p.1 r.id x)

/-- One step of the linkage evolution: an empty linkage is populated
from the record id, a nonempty one is kept. -/
def linkStep (cur : String) (r : VendorRecord) : String :=
  if cur = "" then r.id else cur

/-- The linkage value after a sequence of records of one key. -/
def linkFold (cur : String) (l : List VendorRecord) : String :=
  l.foldl linkStep cur

/-- The linkage of the first row of a per-key group (empty string for an
empty group, matching the linkage a fresh insert starts from). -/
def headLink : List SoftwareVendor → String
  | [] => ""
  | h :: _ => h.airtable_record_id

/-- The fields of the first row of a per-key group. -/
def headFields : List SoftwareVendor → Option NewSoftwareVendor
  | [] => none
  | h :: _ => some h.fields

/-- The natural keys of the rows of a store, in row order. -/
def storeNames (s : Store) : List String := s.map (fun r => r.fields.name)

example :
    enrichVendor
      ⟨.ok 7, .ok 3, .ok 4, .ok [], .ok 9⟩
      (decodeVendor { RawVendorFields.empty with name := some "GitHub" }) =
      .ok ({ decodeVendor { RawVendorFields.empty with name := some "GitHub" } with users := 7 },
        [EnrichCall.github]) := by decide

example :
    (refresh_software_vendors
      ⟨.ok 7, .ok 3, .ok 4, .ok [], .ok 9⟩
      [⟨"recXYZ", decodeVendor { RawVendorFields.empty with name := some "Acme", status := some "active" }⟩]
      []).1.map (fun r => (r.fields.name, r.fields.status, r.airtable_record_id)) =
      [("Acme", "active", "recXYZ")] := by decide

example :
    get_rfds_from_repo (.ok (some "csv"))
      (fun _ => [.ok ["2", "t2", "l2", "s2", "d2"], .ok ["1", "t1", "l1", "s1", "d1"]]) =
      .ok [(1, ⟨"1", "t1", "l1", "s1", "d1"⟩), (2, ⟨"2", "t2", "l2", "s2", "d2"⟩)] := by decide

example :
    post_to_channel "u" "p" (.ok ⟨404, .ok "nf"⟩) =
      .ok [slackFailLog "u" 404 "nf"] := by decide

/-! ### Notifier theorems (claim C6) -/

/-- C6 (counterexample): the claim says every delivery failure is only
logged and the call returns normally; but a transport-level send
failure hits the unwrap at slack.rs line 31 and aborts: at this
concrete input post_to_channel does not return normally. -/
theorem c6_counterexample :
    post_to_channel "https://chat.example/hook" "payload"
      (Except.error NetError.connectionFailed) =
      Except.error NetError.connectionFailed := rfl

/-- C6 (amended): for every call to the notifier post operation that
receives an HTTP response whose body is readable, a response status
other than 200 is only logged and never raised: the call returns
normally, with exactly the failure log line; only a 200 status counts
as success (no log line).  A transport-level send failure, or a failed
read of the non-200 response body, still aborts. -/
theorem c6_nonraising (url v : String) (resp : HttpResponse) (body : String)
    (hbody : resp.text = Except.ok body) :
    post_to_channel url v (Except.ok resp) =
      Except.ok (if resp.status = 200 then [] else [slackFailLog url resp.status body]) := by
  by_cases h : resp.status = 200 <;> simp [post_to_channel, h, hbody]

/-- Witness for c6_nonraising at a concrete 500 response. -/
theorem c6_nonraising_witness :
    (HttpResponse.mk 500 (Except.ok "oops")).text = Except.ok "oops"
    ∧ post_to_channel "https://chat.example/hook" "payload"
        (Except.ok ⟨500, Except.ok "oops"⟩) =
        Except.ok (if (500 : Nat) = 200 then []
          else [slackFailLog "https://chat.example/hook" 500 "oops"]) :=
  ⟨rfl, c6_nonraising "https://chat.example/hook" "payload" ⟨500, Except.ok "oops"⟩ "oops" rfl⟩

/-! ### Config loader theorems (claim C7) -/

theorem readAllFiles_fail (fs : String → Option String) :
    ∀ files : List String, (∃ f ∈ files, fs f = none) →
      readAllFiles fs files = .error ConfigError.readFailed
  | [], h => absurd h (by simp)
  | f :: rest, h => by
    cases hf : fs f with
    | none => simp [readAllFiles, hf]
    | some body =>
      obtain ⟨g, hg, hgn⟩ := h
      rcases List.mem_cons.mp hg with hgf | hgr
      · rw [hgf] at hgn; rw [hgn] at hf; cases hf
      · have ih := readAllFiles_fail fs rest ⟨g, hgr, hgn⟩
        simp [readAllFiles, hf, ih]

theorem readAllFiles_ok (fs : String → Option String) :
    ∀ (files bodies : List String), files.map fs = bodies.map some →
      readAllFiles fs files = .ok (concatAll bodies)
  | [], bodies, h => by
    have : bodies = [] := by
      cases bodies with
      | nil => rfl
      | cons b bs => simp at h
    subst this
    rfl
  | f :: rest, bodies, h => by
    cases bodies with
    | nil => simp at h
    | cons b bs =>
      simp only [List.map_cons, List.cons.injEq] at h
      have ih := readAllFiles_ok fs rest bs h.2
      simp [readAllFiles, h.1, ih, concatAll]

/-- C7: the config loader concatenates the raw contents of the given
files in argument order and decodes the concatenation as one structured
document; it fails fatally when no file path is given, when any file is
unreadable, and when the concatenation does not decode. -/
theorem c7_config_loader {Cfg : Type} (dec : String → Option Cfg)
    (fs : String → Option String) (files : List String) :
    (read_config_from_files dec fs none = .error ConfigError.noFiles)
    ∧ ((∃ f ∈ files, fs f = none) →
        read_config_from_files dec fs (some files) = .error ConfigError.readFailed)
    ∧ (∀ bodies : List String, files.map fs = bodies.map some →
        read_config_from_files dec fs (some files) =
          match dec (concatAll bodies) with
          | some c => Except.ok c
          | none => Except.error ConfigError.decodeFailed) := by
  refine ⟨rfl, ?_, ?_⟩
  · intro h
    simp [read_config_from_files, readAllFiles_fail fs files h]
  · intro bodies h
    simp only [read_config_from_files, readAllFiles_ok fs files bodies h]
    cases dec (concatAll bodies) <;> rfl

/-- Witness for c7_config_loader: one unreadable file makes the load
fail, and two readable files decode from their concatenation ("ab" and
"c" concatenate to a three-character document, decoded here by its
length). -/
theorem c7_config_loader_witness :
    (∃ f ∈ ["a", "z"], (fun f => if f = "a" then some "ab" else if f = "b" then some "c" else none) f = none)
    ∧ read_config_from_files (fun s => some s.length)
        (fun f => if f = "a" then some "ab" else if f = "b" then some "c" else none)
        (some ["a", "z"]) = .error ConfigError.readFailed
    ∧ read_config_from_files (fun s => some s.length)
        (fun f => if f = "a" then some "ab" else if f = "b" then some "c" else none)
        (some ["a", "b"]) = .ok 3 :=
  ⟨by decide,
   (c7_config_loader (fun s => some s.length) _ ["a", "z"]).2.1 (by decide),
   (c7_config_loader (fun s => some s.length) _ ["a", "b"]).2.2 ["ab", "c"] (by decide)⟩

/-! ### File writer theorems (claim C8) -/

theorem lookup_setFileContents_self :
    ∀ (files : List (List String × String)) (p : List String) (c : String),
      lookupFile (setFileContents files p c) p = some c
  | [], p, c => by simp [setFileContents, lookupFile]
  | (q, old) :: rest, p, c => by
    by_cases h : q = p
    · simp [setFileContents, h, lookupFile]
    · simp [setFileContents, h, lookupFile, lookup_setFileContents_self rest p c]

theorem lookup_setFileContents_other :
    ∀ (files : List (List String × String)) (p : List String) (c : String)
      (q : List String), q ≠ p →
      lookupFile (setFileContents files p c) q = lookupFile files q
  | [], p, c, q, h => by simp [setFileContents, lookupFile, Ne.symm h]
  | (x, old) :: rest, p, c, q, h => by
    by_cases hx : x = p
    · subst hx
      simp [setFileContents, lookupFile, h, Ne.symm h]
    · simp only [setFileContents, if_neg hx, lookupFile]
      by_cases hq : x = q
      · simp [hq]
      · simp [hq, lookup_setFileContents_other rest p c q h]

theorem mem_create_dir_all (fsys : FileSystem) (d : List String) (p : List String)
    (h : p ∈ ancestors d) : p ∈ (create_dir_all fsys d).dirs := by
  unfold create_dir_all
  by_cases hp : p ∈ fsys.dirs
  · exact List.mem_append_left _ hp
  · refine List.mem_append_right _ ?_
    refine List.mem_filter.mpr ⟨h, ?_⟩
    simpa using hp

/-- C8: write_file creates all missing parent directories of the path
and then the file itself, overwriting any existing file at that path;
afterwards the stored content equals the input content byte for byte
and no other file changes.  (The empty path has no parent and makes the
source panic, hence the nonemptiness hypothesis.) -/
theorem c8_write_file (fsys : FileSystem) (file : List String) (contents : String)
    (hne : file ≠ []) :
    ∃ fsys2, write_file fsys file contents = some fsys2
      ∧ lookupFile fsys2.files file = some contents
      ∧ (∀ q : List String, q ≠ file → lookupFile fsys2.files q = lookupFile fsys.files q)
      ∧ (∀ n : Nat, n ≤ file.dropLast.length → file.dropLast.take n ∈ fsys2.dirs) := by
  cases file with
  | nil => exact absurd rfl hne
  | cons a as =>
    refine ⟨_, rfl, ?_, ?_, ?_⟩
    · exact lookup_setFileContents_self _ _ _
    · intro q hq
      exact lookup_setFileContents_other _ _ _ q hq
    · intro n hn
      have hmem : (a :: as).dropLast.take n ∈ ancestors ((a :: as).dropLast) := by
        unfold ancestors
        refine List.mem_map.mpr ⟨n, ?_, rfl⟩
        simpa [Nat.lt_succ_iff] using hn
      exact mem_create_dir_all fsys _ _ hmem

/-- Witness for c8_write_file: writing into a twice-nested fresh
directory. -/
theorem c8_write_file_witness :
    (["docs", "gen", "out.txt"] : List String) ≠ []
    ∧ ∃ fsys2, write_file ⟨[], []⟩ ["docs", "gen", "out.txt"] "generated" = some fsys2
      ∧ lookupFile fsys2.files ["docs", "gen", "out.txt"] = some "generated"
      ∧ (∀ q : List String, q ≠ ["docs", "gen", "out.txt"] →
          lookupFile fsys2.files q = lookupFile (FileSystem.mk [] []).files q)
      ∧ (∀ n : Nat, n ≤ (["docs", "gen", "out.txt"] : List String).dropLast.length →
          (["docs", "gen", "out.txt"] : List String).dropLast.take n ∈ fsys2.dirs) :=
  ⟨by decide, c8_write_file ⟨[], []⟩ ["docs", "gen", "out.txt"] "generated" (by decide)⟩

/-! ### Enrichment dispatch theorems (claims C2 and C10) -/

theorem i32ofNat_small (n : Nat) (h : n < 2 ^ 31) : i32ofNat n = (n : Int) := by
  unfold i32ofNat
  have h32 : n % 2 ^ 32 = n := Nat.mod_eq_of_lt (lt_trans h (by norm_num))
  rw [h32, if_pos h]

/-- C2: a record named exactly "GitHub" gets its users field set to the
GitHub enrichment source's reported filled-seat count, for every
reported count, with exactly one enrichment call made; a record whose
name matches none of the special-case names makes no enrichment call
and keeps its users field at the decoded value, whose decoded default
for an absent raw field is zero. -/
theorem c2_enrichment_dispatch (env : Env) (v : NewSoftwareVendor) (raw : RawVendorFields) :
    (∀ n : Int, v.name = "GitHub" → env.githubFilledSeats = .ok n → 0 ≤ n →
      enrichVendor env v = .ok ({ v with users := n }, [EnrichCall.github]))
    ∧ (v.name ∉ specialVendorNames → enrichVendor env v = .ok (v, []))
    ∧ (raw.users = none → (decodeVendor raw).users = 0) := by
  refine ⟨?_, ?_, ?_⟩
  · intro n hname hresp _
    simp [enrichVendor, hname, hresp]
  · intro hname
    simp only [specialVendorNames, List.mem_cons, List.not_mem_nil, or_false, not_or] at hname
    obtain ⟨h1, h2, h3, h4, h5, h6, h7, h8⟩ := hname
    simp [enrichVendor, h1, h2, h3, h4, h5, h6, h7, h8]
  · intro h
    simp [decodeVendor, h]

/-- Witness for c2_enrichment_dispatch: a mocked filled-seat count of 4
lands in the users field of a record named GitHub; a record named Acme
is returned unchanged with no enrichment call; the decoded default of
an absent users field is zero. -/
theorem c2_enrichment_dispatch_witness :
    (0 : Int) ≤ 4
    ∧ enrichVendor ⟨.ok 4, .ok 0, .ok 0, .ok [], .ok 0⟩
        (decodeVendor { RawVendorFields.empty with name := some "GitHub" }) =
        .ok ({ decodeVendor { RawVendorFields.empty with name := some "GitHub" } with users := 4 },
          [EnrichCall.github])
    ∧ enrichVendor ⟨.ok 4, .ok 0, .ok 0, .ok [], .ok 0⟩
        (decodeVendor { RawVendorFields.empty with name := some "Acme" }) =
        .ok (decodeVendor { RawVendorFields.empty with name := some "Acme" }, [])
    ∧ (decodeVendor RawVendorFields.empty).users = 0 :=
  ⟨by decide,
   (c2_enrichment_dispatch ⟨.ok 4, .ok 0, .ok 0, .ok [], .ok 0⟩ _ RawVendorFields.empty).1
     4 rfl rfl (by decide),
   (c2_enrichment_dispatch ⟨.ok 4, .ok 0, .ok 0, .ok [], .ok 0⟩ _ RawVendorFields.empty).2.1
     (by decide),
   (c2_enrichment_dispatch ⟨.ok 4, .ok 0, .ok 0, .ok [], .ok 0⟩
     (decodeVendor RawVendorFields.empty) RawVendorFields.empty).2.2 rfl⟩

/-- C10: a record named exactly "Slack" gets its users field set to the
number of entries of the billable-info response whose billing_active
flag is true, not to the total number of entries; the count is the only
part of the response the result depends on.  (The count is accumulated
in an i32; the size hypothesis keeps the cast the identity, as it is
for any real workspace.) -/
theorem c10_slack_billable (env : Env) (v : NewSoftwareVendor)
    (users : List (String × BillableInfo))
    (hname : v.name = "Slack") (hresp : env.slackBillable = .ok users)
    (hsize : (users.filter (fun p => p.2.billing_active)).length < 2 ^ 31) :
    enrichVendor env v =
      .ok ({ v with users := ((users.filter (fun p => p.2.billing_active)).length : Int) },
        [EnrichCall.slack]) := by
  have hcast := i32ofNat_small _ hsize
  simp [enrichVendor, hname, hresp, slackActiveCount, hcast]

/-- Witness for c10_slack_billable: two billable-info entries, one
billing-active, one not: the resulting seat count is 1, not 2. -/
theorem c10_slack_billable_witness :
    (([("U1", ⟨true⟩), ("U2", ⟨false⟩)] : List (String × BillableInfo)).filter
        (fun p => p.2.billing_active)).length < 2 ^ 31
    ∧ enrichVendor ⟨.ok 0, .ok 0, .ok 0, .ok [("U1", ⟨true⟩), ("U2", ⟨false⟩)], .ok 0⟩
        (decodeVendor { RawVendorFields.empty with name := some "Slack" }) =
        .ok ({ decodeVendor { RawVendorFields.empty with name := some "Slack" } with
          users := ((([("U1", ⟨true⟩), ("U2", ⟨false⟩)] : List (String × BillableInfo)).filter
            (fun p => p.2.billing_active)).length : Int) }, [EnrichCall.slack]) :=
  ⟨by decide,
   c10_slack_billable ⟨.ok 0, .ok 0, .ok 0, .ok [("U1", ⟨true⟩), ("U2", ⟨false⟩)], .ok 0⟩
     (decodeVendor { RawVendorFields.empty with name := some "Slack" })
     [("U1", ⟨true⟩), ("U2", ⟨false⟩)] rfl rfl (by decide)⟩

/-! ### Reconciliation lemmas: enrichment, upsert and update shapes -/

theorem enrichVendor_name (env : Env) (v : NewSoftwareVendor)
    (p : NewSoftwareVendor × List EnrichCall) (h : enrichVendor env v = .ok p) :
    p.1.name = v.name := by
  unfold enrichVendor at h
  repeat' split at h
  all_goals first
    | (injection h with h1; rw [← h1])
    | cases h

theorem upsert_in_db_absent (v : NewSoftwareVendor) :
    ∀ s : Store, (∀ r ∈ s, r.fields.name ≠ v.name) →
      upsert_in_db v s = (⟨v, ""⟩, s ++ [(⟨v, ""⟩ : SoftwareVendor)])
  | [], _ => rfl
  | r :: rest, h => by
    have hr : r.fields.name ≠ v.name := h r (List.mem_cons_self r rest)
    have ih := upsert_in_db_absent v rest (fun x hx => h x (List.mem_cons_of_mem r hx))
    simp [upsert_in_db, hr, ih]

theorem upsert_in_db_found (v : NewSoftwareVendor) :
    ∀ (p : Store) (h0 : SoftwareVendor) (q : Store),
      (∀ r ∈ p, r.fields.name ≠ v.name) → h0.fields.name = v.name →
      upsert_in_db v (p ++ h0 :: q) =
        (⟨v, h0.airtable_record_id⟩, p ++ ⟨v, h0.airtable_record_id⟩ :: q)
  | [], h0, q, _, hh => by simp [upsert_in_db, hh]
  | r :: p', h0, q, hp, hh => by
    have hr : r.fields.name ≠ v.name := hp r (List.mem_cons_self r p')
    have ih := upsert_in_db_found v p' h0 q (fun x hx => hp x (List.mem_cons_of_mem r hx)) hh
    simp [upsert_in_db, hr, ih]

theorem updateDb_found (row : SoftwareVendor) :
    ∀ (p : Store) (h0 : SoftwareVendor) (q : Store),
      (∀ r ∈ p, r.fields.name ≠ row.fields.name) → h0.fields.name = row.fields.name →
      updateDb row (p ++ h0 :: q) = p ++ row :: q
  | [], h0, q, _, hh => by simp [updateDb, hh]
  | r :: p', h0, q, hp, hh => by
    have hr : r.fields.name ≠ row.fields.name := hp r (List.mem_cons_self r p')
    have ih := updateDb_found row p' h0 q (fun x hx => hp x (List.mem_cons_of_mem r hx)) hh
    simp [updateDb, hr, ih]

theorem exists_first_key (k : String) :
    ∀ s : Store, (∃ r ∈ s, r.fields.name = k) →
      ∃ p h0 q, s = p ++ h0 :: q ∧ (∀ r ∈ p, r.fields.name ≠ k) ∧ h0.fields.name = k
  | [], h => absurd h (by simp)
  | r :: rest, h => by
    by_cases hr : r.fields.name = k
    · exact ⟨[], r, rest, rfl, by simp, hr⟩
    · obtain ⟨x, hx, hxk⟩ := h
      have hxr : x ∈ rest := by
        rcases List.mem_cons.mp hx with h1 | h1
        · subst h1; exact absurd hxk hr
        · exact h1
      obtain ⟨p, h0, q, hs, hp, hh⟩ := exists_first_key k rest ⟨x, hxr, hxk⟩
      refine ⟨r :: p, h0, q, by rw [hs, List.cons_append], ?_, hh⟩
      intro y hy
      rcases List.mem_cons.mp hy with h1 | h1
      · subst h1; exact hr
      · exact hp y h1

theorem processRecord_insert (env : Env) (s : Store) (rec : VendorRecord)
    (ev : NewSoftwareVendor) (calls : List EnrichCall)
    (habs : ∀ r ∈ s, r.fields.name ≠ rec.fields.name)
    (hen : enrichVendor env rec.fields = .ok (ev, calls)) :
    processRecord env s rec = .ok (s ++ [(⟨ev, rec.id⟩ : SoftwareVendor)], calls) := by
  have hname : ev.name = rec.fields.name := enrichVendor_name env rec.fields (ev, calls) hen
  have habs' : ∀ r ∈ s, r.fields.name ≠ ev.name := by
    intro r hr; rw [hname]; exact habs r hr
  have hu := upsert_in_db_absent ev s habs'
  have hupd : updateDb ⟨ev, rec.id⟩ (s ++ [(⟨ev, ""⟩ : SoftwareVendor)]) =
      s ++ [(⟨ev, rec.id⟩ : SoftwareVendor)] := by
    have := updateDb_found ⟨ev, rec.id⟩ s ⟨ev, ""⟩ [] habs' rfl
    simpa using this
  simp [processRecord, hen, hu, hupd]

theorem processRecord_update (env : Env) (rec : VendorRecord)
    (ev : NewSoftwareVendor) (calls : List EnrichCall)
    (p : Store) (h0 : SoftwareVendor) (q : Store)
    (hp : ∀ r ∈ p, r.fields.name ≠ rec.fields.name)
    (hh : h0.fields.name = rec.fields.name)
    (hen : enrichVendor env rec.fields = .ok (ev, calls)) :
    processRecord env (p ++ h0 :: q) rec =
      .ok (p ++ (⟨ev, if h0.airtable_record_id = "" then rec.id
        else h0.airtable_record_id⟩ : SoftwareVendor) :: q, calls) := by
  have hname : ev.name = rec.fields.name := enrichVendor_name env rec.fields (ev, calls) hen
  have hp' : ∀ r ∈ p, r.fields.name ≠ ev.name := by
    intro r hr; rw [hname]; exact hp r hr
  have hh' : h0.fields.name = ev.name := by rw [hname, hh]
  have hu := upsert_in_db_found ev p h0 q hp' hh'
  by_cases hl : h0.airtable_record_id = ""
  · have hupd : updateDb ⟨ev, rec.id⟩
        (p ++ (⟨ev, h0.airtable_record_id⟩ : SoftwareVendor) :: q) = p ++ ⟨ev, rec.id⟩ :: q :=
      updateDb_found ⟨ev, rec.id⟩ p ⟨ev, h0.airtable_record_id⟩ q hp' rfl
    rw [hl] at hu hupd
    simp [processRecord, hen, hu, hl, hupd]
  · have hupd : updateDb ⟨ev, h0.airtable_record_id⟩
        (p ++ (⟨ev, h0.airtable_record_id⟩ : SoftwareVendor) :: q) =
        p ++ ⟨ev, h0.airtable_record_id⟩ :: q :=
      updateDb_found ⟨ev, h0.airtable_record_id⟩ p ⟨ev, h0.airtable_record_id⟩ q hp' rfl
    simp [processRecord, hen, hu, hl, hupd]

theorem processRecord_of_error (env : Env) (s : Store) (rec : VendorRecord) (e : RunError)
    (h : enrichVendor env rec.fields = .error e) :
    processRecord env s rec = .error e := by
  simp [processRecord, h]

theorem processRecord_error_enrich (env : Env) (s : Store) (rec : VendorRecord) (e : RunError)
    (h : processRecord env s rec = .error e) :
    enrichVendor env rec.fields = .error e := by
  unfold processRecord at h
  cases hen : enrichVendor env rec.fields with
  | error e' => rw [hen] at h; injection h with h1; rw [h1]
  | ok pr => rw [hen] at h; cases h

theorem processRecord_ok_enrich (env : Env) (s : Store) (rec : VendorRecord)
    (s2 : Store) (calls : List EnrichCall)
    (h : processRecord env s rec = .ok (s2, calls)) :
    ∃ ev, enrichVendor env rec.fields = .ok (ev, calls) := by
  unfold processRecord at h
  cases hen : enrichVendor env rec.fields with
  | error e => rw [hen] at h; cases h
  | ok pr =>
    obtain ⟨ev0, cs0⟩ := pr
    rw [hen] at h
    injection h with h1
    have hc : cs0 = calls := congrArg Prod.snd h1
    exact ⟨ev0, by rw [← hc]⟩

/-! ### Per-key filter lemmas -/

theorem keyFilter_nil (k : String) : keyFilter k [] = [] := rfl

theorem keyFilter_cons (k : String) (r : SoftwareVendor) (s : Store) :
    keyFilter k (r :: s) =
      if r.fields.name = k then r :: keyFilter k s else keyFilter k s := by
  by_cases h : r.fields.name = k <;> simp [keyFilter, List.filter_cons, h]

theorem keyFilter_append (k : String) (s t : Store) :
    keyFilter k (s ++ t) = keyFilter k s ++ keyFilter k t := by
  simp [keyFilter]

theorem keyFilter_eq_nil (k : String) (s : Store) :
    keyFilter k s = [] ↔ ∀ r ∈ s, r.fields.name ≠ k := by
  simp [keyFilter, List.filter_eq_nil_iff]

theorem mem_keyFilter (k : String) (s : Store) (r : SoftwareVendor) :
    r ∈ keyFilter k s ↔ r ∈ s ∧ r.fields.name = k := by
  simp [keyFilter, List.mem_filter]

theorem processRecord_keyFilter_ne (env : Env) (s : Store) (rec : VendorRecord)
    (s2 : Store) (calls : List EnrichCall) (k : String)
    (h : processRecord env s rec = .ok (s2, calls)) (hk : rec.fields.name ≠ k) :
    keyFilter k s2 = keyFilter k s := by
  obtain ⟨ev, hen⟩ := processRecord_ok_enrich env s rec s2 calls h
  have hname : ev.name = rec.fields.name := enrichVendor_name env rec.fields (ev, calls) hen
  by_cases hex : ∃ r ∈ s, r.fields.name = rec.fields.name
  · obtain ⟨p, h0, q, hs, hp, hh⟩ := exists_first_key _ s hex
    subst hs
    rw [processRecord_update env rec ev calls p h0 q hp hh hen] at h
    injection h with h1
    have hs2 : s2 = p ++ (⟨ev, if h0.airtable_record_id = "" then rec.id
        else h0.airtable_record_id⟩ : SoftwareVendor) :: q := (congrArg Prod.fst h1).symm
    subst hs2
    rw [keyFilter_append, keyFilter_append, keyFilter_cons, keyFilter_cons]
    have hrow : ev.name ≠ k := by rw [hname]; exact hk
    have hh0 : h0.fields.name ≠ k := by rw [hh]; exact hk
    simp [hrow, hh0]
  · push_neg at hex
    rw [processRecord_insert env s rec ev calls hex hen] at h
    injection h with h1
    have hs2 : s2 = s ++ [(⟨ev, rec.id⟩ : SoftwareVendor)] := (congrArg Prod.fst h1).symm
    subst hs2
    rw [keyFilter_append, keyFilter_cons]
    have hrow : ev.name ≠ k := by rw [hname]; exact hk
    simp [hrow, keyFilter_nil]

theorem processRecord_keyFilter_eq (env : Env) (s : Store) (rec : VendorRecord)
    (s2 : Store) (calls : List EnrichCall)
    (h : processRecord env s rec = .ok (s2, calls)) :
    ∃ ev, enrichVendor env rec.fields = .ok (ev, calls) ∧
      keyFilter rec.fields.name s2 =
        stepKval ev rec.id (keyFilter rec.fields.name s) := by
  obtain ⟨ev, hen⟩ := processRecord_ok_enrich env s rec s2 calls h
  have hname : ev.name = rec.fields.name := enrichVendor_name env rec.fields (ev, calls) hen
  refine ⟨ev, hen, ?_⟩
  by_cases hex : ∃ r ∈ s, r.fields.name = rec.fields.name
  · obtain ⟨p, h0, q, hs, hp, hh⟩ := exists_first_key _ s hex
    subst hs
    rw [processRecord_update env rec ev calls p h0 q hp hh hen] at h
    injection h with h1
    have hs2 : s2 = p ++ (⟨ev, if h0.airtable_record_id = "" then rec.id
        else h0.airtable_record_id⟩ : SoftwareVendor) :: q := (congrArg Prod.fst h1).symm
    subst hs2
    have hpnil : keyFilter rec.fields.name p = [] := (keyFilter_eq_nil _ p).mpr hp
    rw [keyFilter_append, keyFilter_append, keyFilter_cons, keyFilter_cons, hpnil]
    simp [hname, hh, stepKval]
  · push_neg at hex
    rw [processRecord_insert env s rec ev calls hex hen] at h
    injection h with h1
    have hs2 : s2 = s ++ [(⟨ev, rec.id⟩ : SoftwareVendor)] := (congrArg Prod.fst h1).symm
    subst hs2
    have hsnil : keyFilter rec.fields.name s = [] := (keyFilter_eq_nil _ s).mpr hex
    rw [keyFilter_append, keyFilter_cons, hsnil]
    simp [hname, stepKval, keyFilter_nil]

/-! ### Run-level lemmas -/

theorem runSync_cons_error (env : Env) (rec : VendorRecord) (rest : List VendorRecord)
    (s : Store) (e : RunError) (h : processRecord env s rec = .error e) :
    runSync env (rec :: rest) s = (s, some e) := by
  simp [runSync, h]

theorem runSync_cons_ok (env : Env) (rec : VendorRecord) (rest : List VendorRecord)
    (s : Store) (p : Store × List EnrichCall) (h : processRecord env s rec = .ok p) :
    runSync env (rec :: rest) s = runSync env rest p.1 := by
  simp [runSync, h]

theorem runSync_append (env : Env) :
    ∀ (l1 l2 : List VendorRecord) (s : Store),
      runSync env (l1 ++ l2) s =
        match (runSync env l1 s).2 with
        | none => runSync env l2 (runSync env l1 s).1
        | some _ => runSync env l1 s
  | [], l2, s => rfl
  | rec :: t, l2, s => by
    cases hp : processRecord env s rec with
    | error e =>
      rw [List.cons_append, runSync_cons_error env rec (t ++ l2) s e hp,
        runSync_cons_error env rec t s e hp]
    | ok p =>
      rw [List.cons_append, runSync_cons_ok env rec (t ++ l2) s p hp,
        runSync_cons_ok env rec t s p hp]
      exact runSync_append env t l2 p.1

theorem runSync_error_split (env : Env) :
    ∀ (l : List VendorRecord) (s F : Store) (e : RunError),
      runSync env l s = (F, some e) →
      ∃ l1 rec l2, l = l1 ++ rec :: l2 ∧ runSync env l1 s = (F, none) ∧
        enrichVendor env rec.fields = .error e
  | [], s, F, e, h => by
    injection h with _ h2
    cases h2
  | rec :: t, s, F, e, h => by
    cases hp : processRecord env s rec with
    | error e' =>
      rw [runSync_cons_error env rec t s e' hp] at h
      injection h with h1 h2
      injection h2 with h3
      refine ⟨[], rec, t, rfl, ?_, ?_⟩
      · rw [← h1]; rfl
      · rw [← h3]; exact processRecord_error_enrich env s rec e' hp
    | ok p =>
      rw [runSync_cons_ok env rec t s p hp] at h
      obtain ⟨l1, rc, l2, hl, hrun, hen⟩ := runSync_error_split env t p.1 F e h
      refine ⟨rec :: l1, rc, l2, by rw [hl, List.cons_append], ?_, hen⟩
      rw [runSync_cons_ok env rec l1 s p hp]
      exact hrun

theorem runSync_keyFilter_ne (env : Env) (k : String) :
    ∀ (l : List VendorRecord) (s : Store), (∀ r ∈ l, r.fields.name ≠ k) →
      keyFilter k (runSync env l s).1 = keyFilter k s
  | [], _, _ => rfl
  | rec :: t, s, h => by
    cases hp : processRecord env s rec with
    | error e => rw [runSync_cons_error env rec t s e hp]
    | ok p =>
      obtain ⟨s2, calls⟩ := p
      rw [runSync_cons_ok env rec t s (s2, calls) hp]
      have ih := runSync_keyFilter_ne env k t s2
        (fun r hr => h r (List.mem_cons_of_mem rec hr))
      rw [ih]
      exact processRecord_keyFilter_ne env s rec s2 calls k hp
        (h rec (List.mem_cons_self rec t))

theorem runSync_runK (env : Env) (k : String) :
    ∀ (l : List VendorRecord) (s F : Store), runSync env l s = (F, none) →
      runK env (l.filter (fun r => r.fields.name == k)) (keyFilter k s) =
        .ok (keyFilter k F)
  | [], s, F, h => by
    injection h with h1 _
    rw [← h1]
    rfl
  | rec :: t, s, F, h => by
    cases hp : processRecord env s rec with
    | error e =>
      rw [runSync_cons_error env rec t s e hp] at h
      injection h with _ h2
      cases h2
    | ok p =>
      obtain ⟨s2, calls⟩ := p
      rw [runSync_cons_ok env rec t s (s2, calls) hp] at h
      by_cases hk : rec.fields.name = k
      · subst hk
        obtain ⟨ev, hen, hkf⟩ := processRecord_keyFilter_eq env s rec s2 calls hp
        have hfilt : (rec :: t).filter (fun r => r.fields.name == rec.fields.name) =
            rec :: t.filter (fun r => r.fields.name == rec.fields.name) := by
          simp [List.filter_cons]
        rw [hfilt]
        have hrunk : runK env (rec :: t.filter (fun r => r.fields.name == rec.fields.name))
            (keyFilter rec.fields.name s) =
            runK env (t.filter (fun r => r.fields.name == rec.fields.name))
              (stepKval ev rec.id (keyFilter rec.fields.name s)) := by
          simp [runK, hen]
        rw [hrunk, ← hkf]
        exact runSync_runK env rec.fields.name t s2 F h
      · have hfilt : (rec :: t).filter (fun r => r.fields.name == k) =
            t.filter (fun r => r.fields.name == k) := by
          simp [List.filter_cons, hk]
        have hkf := processRecord_keyFilter_ne env s rec s2 calls k hp hk
        rw [hfilt, ← hkf]
        exact runSync_runK env k t s2 F h

theorem processRecord_names_present (env : Env) (s : Store) (rec : VendorRecord)
    (s2 : Store) (calls : List EnrichCall)
    (h : processRecord env s rec = .ok (s2, calls))
    (hex : ∃ r ∈ s, r.fields.name = rec.fields.name) :
    storeNames s2 = storeNames s := by
  obtain ⟨ev, hen⟩ := processRecord_ok_enrich env s rec s2 calls h
  have hname : ev.name = rec.fields.name := enrichVendor_name env rec.fields (ev, calls) hen
  obtain ⟨p, h0, q, hs, hp, hh⟩ := exists_first_key _ s hex
  subst hs
  rw [processRecord_update env rec ev calls p h0 q hp hh hen] at h
  injection h with h1
  have hs2 : s2 = p ++ (⟨ev, if h0.airtable_record_id = "" then rec.id
      else h0.airtable_record_id⟩ : SoftwareVendor) :: q := (congrArg Prod.fst h1).symm
  subst hs2
  simp [storeNames, hname, hh]

theorem processRecord_names_absent (env : Env) (s : Store) (rec : VendorRecord)
    (s2 : Store) (calls : List EnrichCall)
    (h : processRecord env s rec = .ok (s2, calls))
    (habs : ∀ r ∈ s, r.fields.name ≠ rec.fields.name) :
    storeNames s2 = storeNames s ++ [rec.fields.name] := by
  obtain ⟨ev, hen⟩ := processRecord_ok_enrich env s rec s2 calls h
  have hname : ev.name = rec.fields.name := enrichVendor_name env rec.fields (ev, calls) hen
  rw [processRecord_insert env s rec ev calls habs hen] at h
  injection h with h1
  have hs2 : s2 = s ++ [(⟨ev, rec.id⟩ : SoftwareVendor)] := (congrArg Prod.fst h1).symm
  subst hs2
  simp [storeNames, hname]

theorem mem_storeNames (s : Store) (x : String) :
    x ∈ storeNames s ↔ ∃ row ∈ s, row.fields.name = x := by
  simp [storeNames]

theorem runSync_names_grow (env : Env) :
    ∀ (l : List VendorRecord) (s : Store),
      ∃ ext : List String, storeNames (runSync env l s).1 = storeNames s ++ ext
  | [], s => ⟨[], by simp [runSync]⟩
  | rec :: t, s => by
    cases hp : processRecord env s rec with
    | error e => exact ⟨[], by rw [runSync_cons_error env rec t s e hp]; simp⟩
    | ok p =>
      obtain ⟨s2, calls⟩ := p
      rw [runSync_cons_ok env rec t s (s2, calls) hp]
      obtain ⟨ext, hext⟩ := runSync_names_grow env t s2
      by_cases hex : ∃ r ∈ s, r.fields.name = rec.fields.name
      · exact ⟨ext, by rw [hext, processRecord_names_present env s rec s2 calls hp hex]⟩
      · push_neg at hex
        refine ⟨rec.fields.name :: ext, ?_⟩
        rw [hext, processRecord_names_absent env s rec s2 calls hp hex]
        simp

theorem runSync_names_preserved (env : Env) :
    ∀ (l : List VendorRecord) (s F : Store), runSync env l s = (F, none) →
      (∀ r ∈ l, r.fields.name ∈ storeNames s) →
      storeNames F = storeNames s
  | [], s, F, h, _ => by
    injection h with h1 _
    rw [← h1]
  | rec :: t, s, F, h, hmem => by
    cases hp : processRecord env s rec with
    | error e =>
      rw [runSync_cons_error env rec t s e hp] at h
      injection h with _ h2
      cases h2
    | ok p =>
      obtain ⟨s2, calls⟩ := p
      rw [runSync_cons_ok env rec t s (s2, calls) hp] at h
      have hex : ∃ r ∈ s, r.fields.name = rec.fields.name :=
        (mem_storeNames s rec.fields.name).mp (hmem rec (List.mem_cons_self rec t))
      have hnames := processRecord_names_present env s rec s2 calls hp hex
      have ih := runSync_names_preserved env t s2 F h
        (fun r hr => by rw [hnames]; exact hmem r (List.mem_cons_of_mem rec hr))
      rw [ih, hnames]

theorem runSync_names_mem (env : Env) :
    ∀ (l : List VendorRecord) (s F : Store), runSync env l s = (F, none) →
      ∀ r ∈ l, r.fields.name ∈ storeNames F
  | [], _, _, _, r, hr => absurd hr (List.not_mem_nil r)
  | rec :: t, s, F, h, r, hr => by
    cases hp : processRecord env s rec with
    | error e =>
      rw [runSync_cons_error env rec t s e hp] at h
      injection h with _ h2
      cases h2
    | ok p =>
      obtain ⟨s2, calls⟩ := p
      rw [runSync_cons_ok env rec t s (s2, calls) hp] at h
      rcases List.mem_cons.mp hr with h1 | h1
      · subst h1
        have hmem2 : r.fields.name ∈ storeNames s2 := by
          by_cases hex : ∃ x ∈ s, x.fields.name = r.fields.name
          · rw [processRecord_names_present env s r s2 calls hp hex]
            exact (mem_storeNames s _).mpr hex
          · push_neg at hex
            rw [processRecord_names_absent env s r s2 calls hp hex]
            simp
        obtain ⟨ext, hext⟩ := runSync_names_grow env t s2
        have hF : (runSync env t s2).1 = F := congrArg Prod.fst h
        rw [← hF, hext]
        exact List.mem_append_left ext hmem2
      · exact runSync_names_mem env t s2 F h r h1

theorem processRecord_ok_indep (env : Env) (s : Store) (rec : VendorRecord)
    (s2 : Store) (calls : List EnrichCall)
    (h : processRecord env s rec = .ok (s2, calls)) (t : Store) :
    ∃ t2, processRecord env t rec = .ok (t2, calls) := by
  obtain ⟨ev, hen⟩ := processRecord_ok_enrich env s rec s2 calls h
  cases hq : processRecord env t rec with
  | error e =>
    have hcon := processRecord_error_enrich env t rec e hq
    rw [hen] at hcon
    cases hcon
  | ok p =>
    obtain ⟨t2, cs⟩ := p
    obtain ⟨ev', hen'⟩ := processRecord_ok_enrich env t rec t2 cs hq
    rw [hen] at hen'
    injection hen' with h1
    have hc : calls = cs := congrArg Prod.snd h1
    subst hc
    exact ⟨t2, rfl⟩

theorem runSync_none_indep (env : Env) :
    ∀ (l : List VendorRecord) (s : Store), (runSync env l s).2 = none →
      ∀ t : Store, (runSync env l t).2 = none
  | [], _, _, _ => rfl
  | rec :: t0, s, h, t => by
    cases hp : processRecord env s rec with
    | error e =>
      rw [runSync_cons_error env rec t0 s e hp] at h
      simp at h
    | ok p =>
      obtain ⟨s2, calls⟩ := p
      rw [runSync_cons_ok env rec t0 s (s2, calls) hp] at h
      obtain ⟨t2, hq⟩ := processRecord_ok_indep env s rec s2 calls hp t
      rw [runSync_cons_ok env rec t0 t (t2, calls) hq]
      exact runSync_none_indep env t0 s2 h t2

/-! ### Linkage-fold and per-key trace lemmas -/

theorem linkStep_ne (c : String) (r : VendorRecord) (h : c ≠ "") : linkStep c r = c :=
  if_neg h

theorem linkFold_nil (c : String) : linkFold c [] = c := rfl

theorem linkFold_cons (c : String) (r : VendorRecord) (t : List VendorRecord) :
    linkFold c (r :: t) = linkFold (linkStep c r) t := rfl

theorem linkFold_ne : ∀ (lk : List VendorRecord) (c : String), c ≠ "" → linkFold c lk = c
  | [], _, _ => rfl
  | r :: t, c, h => by
    rw [linkFold_cons, linkStep_ne c r h]
    exact linkFold_ne t c h

theorem linkFold_empty_start : ∀ (lk : List VendorRecord) (c : String),
    linkFold c lk = "" → c = ""
  | [], _, h => h
  | r :: t, c, h => by
    by_cases hc : c = ""
    · exact hc
    · rw [linkFold_cons, linkStep_ne c r hc] at h
      exact absurd (linkFold_empty_start t c h) hc

theorem linkFold_empty_ids : ∀ (lk : List VendorRecord) (c : String),
    linkFold c lk = "" → ∀ r ∈ lk, r.id = ""
  | [], _, _ => by simp
  | r0 :: t, c, h => by
    intro r hr
    rw [linkFold_cons] at h
    have hstep : linkStep c r0 = "" := linkFold_empty_start t (linkStep c r0) h
    rcases List.mem_cons.mp hr with h1 | h1
    · subst h1
      by_cases hc : c = ""
      · rw [linkStep, if_pos hc] at hstep
        exact hstep
      · rw [linkStep_ne c r hc] at hstep
        exact absurd hstep hc
    · exact linkFold_empty_ids t (linkStep c r0) h r h1

theorem linkFold_all_empty : ∀ lk : List VendorRecord,
    (∀ r ∈ lk, r.id = "") → linkFold "" lk = ""
  | [], _ => rfl
  | r :: t, h => by
    rw [linkFold_cons]
    have hstep : linkStep "" r = "" := by
      rw [linkStep, if_pos rfl]
      exact h r (List.mem_cons_self r t)
    rw [hstep]
    exact linkFold_all_empty t (fun x hx => h x (List.mem_cons_of_mem r hx))

theorem linkFold_idem (lk : List VendorRecord) (c : String) :
    linkFold (linkFold c lk) lk = linkFold c lk := by
  by_cases h : linkFold c lk = ""
  · rw [h]
    exact linkFold_all_empty lk (linkFold_empty_ids lk c h)
  · exact linkFold_ne lk _ h

theorem stepKval_ne_nil (ev : NewSoftwareVendor) (rid : String)
    (x : List SoftwareVendor) : stepKval ev rid x ≠ [] := by
  cases x <;> simp [stepKval]

theorem stepKval_headLink (ev : NewSoftwareVendor) (r : VendorRecord)
    (x : List SoftwareVendor) :
    headLink (stepKval ev r.id x) = linkStep (headLink x) r := by
  cases x <;> simp [stepKval, headLink, linkStep]

theorem stepKval_tail (ev : NewSoftwareVendor) (rid : String)
    (x : List SoftwareVendor) : (stepKval ev rid x).tail = x.tail := by
  cases x <;> simp [stepKval]

theorem runK_headLink_tail (env : Env) :
    ∀ (lk : List VendorRecord) (x y : List SoftwareVendor),
      runK env lk x = .ok y →
      headLink y = linkFold (headLink x) lk ∧ y.tail = x.tail
  | [], x, y, h => by
    injection h with h1
    rw [← h1]
    exact ⟨rfl, rfl⟩
  | r :: t, x, y, h => by
    unfold runK at h
    cases hen : enrichVendor env r.fields with
    | error e => rw [hen] at h; cases h
    | ok p =>
      rw [hen] at h
      have ih := runK_headLink_tail env t (stepKval p.1 r.id x) y h
      refine ⟨?_, ?_⟩
      · rw [ih.1, linkFold_cons, stepKval_headLink]
      · rw [ih.2, stepKval_tail]

theorem runK_ne_nil (env : Env) :
    ∀ (lk : List VendorRecord) (x y : List SoftwareVendor),
      runK env lk x = .ok y → x ≠ [] → y ≠ []
  | [], x, y, h, hx => by
    injection h with h1
    rw [← h1]
    exact hx
  | r :: t, x, y, h, _ => by
    unfold runK at h
    cases hen : enrichVendor env r.fields with
    | error e => rw [hen] at h; cases h
    | ok p =>
      rw [hen] at h
      exact runK_ne_nil env t _ y h (stepKval_ne_nil p.1 r.id x)

theorem runK_cons_ne_nil (env : Env) (r : VendorRecord) (t : List VendorRecord)
    (x y : List SoftwareVendor) (h : runK env (r :: t) x = .ok y) : y ≠ [] := by
  unfold runK at h
  cases hen : enrichVendor env r.fields with
  | error e => rw [hen] at h; cases h
  | ok p =>
    rw [hen] at h
    exact runK_ne_nil env t _ y h (stepKval_ne_nil p.1 r.id x)

theorem stepKval_headFields (ev : NewSoftwareVendor) (rid : String)
    (x : List SoftwareVendor) : headFields (stepKval ev rid x) = some ev := by
  cases x <;> simp [stepKval, headFields]

theorem runK_headFields_det (env : Env) :
    ∀ (lk : List VendorRecord), lk ≠ [] →
      ∀ (x z y w : List SoftwareVendor),
        runK env lk x = .ok y → runK env lk z = .ok w →
        headFields y = headFields w
  | [], hne, _, _, _, _, _, _ => absurd rfl hne
  | [r], _, x, z, y, w, hx, hz => by
    unfold runK at hx hz
    cases hen : enrichVendor env r.fields with
    | error e => rw [hen] at hx; cases hx
    | ok p =>
      rw [hen] at hx hz
      injection hx with h1
      injection hz with h2
      rw [← h1, ← h2, stepKval_headFields, stepKval_headFields]
  | r :: r' :: t, _, x, z, y, w, hx, hz => by
    unfold runK at hx hz
    cases hen : enrichVendor env r.fields with
    | error e => rw [hen] at hx; cases hx
    | ok p =>
      rw [hen] at hx hz
      exact runK_headFields_det env (r' :: t) (by simp) _ _ y w hx hz

theorem runK_ok_indep (env : Env) :
    ∀ (lk : List VendorRecord) (x y : List SoftwareVendor),
      runK env lk x = .ok y → ∀ z, ∃ w, runK env lk z = .ok w
  | [], _, _, _, z => ⟨z, rfl⟩
  | r :: t, x, y, h, z => by
    unfold runK at h ⊢
    cases hen : enrichVendor env r.fields with
    | error e => rw [hen] at h; cases h
    | ok p =>
      rw [hen] at h
      exact runK_ok_indep env t _ y h (stepKval p.1 r.id z)

theorem runK_fix (env : Env) (lk : List VendorRecord) (x y : List SoftwareVendor)
    (h : runK env lk x = .ok y) : runK env lk y = .ok y := by
  cases lk with
  | nil =>
    injection h with h1
    rw [← h1]
    rfl
  | cons r t =>
    obtain ⟨w, hw⟩ := runK_ok_indep env (r :: t) x y h y
    have hft := runK_headFields_det env (r :: t) (by simp) x y y w h hw
    have h1 := runK_headLink_tail env (r :: t) x y h
    have h2 := runK_headLink_tail env (r :: t) y w hw
    have hlink : headLink w = headLink y := by
      rw [h2.1, h1.1, linkFold_idem]
    have htail : w.tail = y.tail := by rw [h2.2, h1.2]
    have hynil : y ≠ [] := runK_cons_ne_nil env r t x y h
    have hwnil : w ≠ [] := runK_cons_ne_nil env r t y w hw
    cases y with
    | nil => exact absurd rfl hynil
    | cons hy ty =>
      cases w with
      | nil => exact absurd rfl hwnil
      | cons hw0 tw =>
        have hf : hy.fields = hw0.fields := by
          simp [headFields] at hft
          exact hft
        have hl : hw0.airtable_record_id = hy.airtable_record_id := by
          simpa [headLink] using hlink
        have ht : tw = ty := by simpa using htail
        have hrow : hw0 = hy := by
          obtain ⟨f1, l1⟩ := hw0
          obtain ⟨f2, l2⟩ := hy
          simp at hf hl
          rw [hf, hl]
        rw [hw, hrow, ht]

/-! ### Store extensionality -/

theorem store_ext : ∀ (A B : Store), storeNames A = storeNames B →
    (∀ k, keyFilter k A = keyFilter k B) → A = B
  | [], [], _, _ => rfl
  | [], b :: B', hmap, _ => by simp [storeNames] at hmap
  | a :: A', [], hmap, _ => by simp [storeNames] at hmap
  | a :: A', b :: B', hmap, hfilt => by
    simp only [storeNames, List.map_cons, List.cons.injEq] at hmap
    have hk := hfilt a.fields.name
    rw [keyFilter_cons, keyFilter_cons, if_pos rfl, if_pos hmap.1.symm] at hk
    have hab : a = b := by injection hk
    have hktail : keyFilter a.fields.name A' = keyFilter a.fields.name B' := by
      injection hk
    have htails : ∀ k, keyFilter k A' = keyFilter k B' := by
      intro k
      by_cases hka : a.fields.name = k
      · rw [← hka]
        exact hktail
      · have hkb : b.fields.name ≠ k := by rw [← hmap.1]; exact hka
        have h3 := hfilt k
        rw [keyFilter_cons, keyFilter_cons, if_neg hka, if_neg hkb] at h3
        exact h3
    rw [hab, store_ext A' B' hmap.2 htails]

/-! ### Main reconciliation theorems (claims C1, C3, C4, C5) -/

theorem runSync_fix (env : Env) (l : List VendorRecord) (s F : Store)
    (h : runSync env l s = (F, none)) : runSync env l F = (F, none) := by
  have hnone2 : (runSync env l F).2 = none :=
    runSync_none_indep env l s (by rw [h]) F
  obtain ⟨F', hF'⟩ : ∃ F', runSync env l F = (F', none) := by
    cases hrun : runSync env l F with
    | mk a b =>
      cases b with
      | none => exact ⟨a, rfl⟩
      | some e => rw [hrun] at hnone2; simp at hnone2
  have hmemF : ∀ r ∈ l, r.fields.name ∈ storeNames F := runSync_names_mem env l s F h
  have hnames : storeNames F' = storeNames F :=
    runSync_names_preserved env l F F' hF' hmemF
  have hfilt : ∀ k, keyFilter k F' = keyFilter k F := by
    intro k
    have h1 := runSync_runK env k l s F h
    have h2 := runSync_runK env k l F F' hF'
    have h3 := runK_fix env (l.filter (fun r => r.fields.name == k))
      (keyFilter k s) (keyFilter k F) h1
    rw [h2] at h3
    simpa using h3
  have hFF : F' = F := store_ext F' F hnames hfilt
  rw [hF', hFF]

/-- C4: running the reconciliation routine a second time on an
unchanged remote listing, with unchanged enrichment responses, starting
from the store state the first run left behind, reproduces that state
exactly: same rows in the same order (so no duplicate rows and no
changed linkage ids), and the same outcome.  This holds for every
listing, every initial store and every environment, whether or not the
run succeeds. -/
theorem c4_idempotent (env : Env) (listing : List VendorRecord) (s : Store) :
    refresh_software_vendors env listing (refresh_software_vendors env listing s).1 =
      refresh_software_vendors env listing s := by
  unfold refresh_software_vendors
  cases hrun : runSync env listing s with
  | mk F eopt =>
    cases eopt with
    | none => exact runSync_fix env listing s F hrun
    | some e =>
      obtain ⟨l1, rec, l2, hl, hrun1, hen⟩ := runSync_error_split env listing s F e hrun
      have hfix : runSync env l1 F = (F, none) := runSync_fix env l1 s F hrun1
      subst hl
      show runSync env (l1 ++ rec :: l2) F = (F, some e)
      rw [runSync_append env l1 (rec :: l2) F, hfix]
      exact runSync_cons_error env rec l2 F e (processRecord_of_error env F rec e hen)

/-- C1 (counterexample): the claim requires the inserted row to carry
the decoded remote fields unchanged, for every listed record; but for a
record named GitHub the routine overwrites the users field with the
enrichment result before upserting, so the stored fields differ from
the decoded fields.  Concretely: an empty store, one remote record of
name GitHub with a defaulted (zero) users field, a mocked filled-seat
count of 5: the run succeeds, stores exactly one row whose linkage is
the record id, but that row's fields are not the decoded fields. -/
theorem c1_counterexample :
    refresh_software_vendors ⟨.ok 5, .ok 0, .ok 0, .ok [], .ok 0⟩
        [⟨"rec1", decodeVendor { RawVendorFields.empty with name := some "GitHub" }⟩] [] =
      ([⟨{ decodeVendor { RawVendorFields.empty with name := some "GitHub" } with users := 5 },
        "rec1"⟩], none)
    ∧ ({ decodeVendor { RawVendorFields.empty with name := some "GitHub" } with users := 5 } ≠
        decodeVendor { RawVendorFields.empty with name := some "GitHub" }) := by decide

/-- C1 (amended): for every listed remote record whose natural key is
absent from the local store and occurs exactly once in the listing
(expressed by the split listing l1, rec, l2), after a successful run
the store contains exactly one row with that key; its non-key fields
equal the decoded remote fields as updated by the enrichment dispatch
(hence equal to the decoded fields whenever no special case matches),
and its remote-linkage field equals the remote record's id. -/
theorem c1_upsert_correct (env : Env) (l1 l2 : List VendorRecord) (rec : VendorRecord)
    (s : Store) (ev : NewSoftwareVendor) (calls : List EnrichCall)
    (habs : ∀ row ∈ s, row.fields.name ≠ rec.fields.name)
    (hl1 : ∀ r ∈ l1, r.fields.name ≠ rec.fields.name)
    (hl2 : ∀ r ∈ l2, r.fields.name ≠ rec.fields.name)
    (hen : enrichVendor env rec.fields = .ok (ev, calls))
    (hok : (refresh_software_vendors env (l1 ++ rec :: l2) s).2 = none) :
    keyFilter rec.fields.name (refresh_software_vendors env (l1 ++ rec :: l2) s).1 =
      [(⟨ev, rec.id⟩ : SoftwareVendor)] := by
  unfold refresh_software_vendors at hok ⊢
  rw [runSync_append env l1 (rec :: l2) s] at hok ⊢
  cases hrun1 : runSync env l1 s with
  | mk s1 e1 =>
    cases e1 with
    | some e => rw [hrun1] at hok; simp at hok
    | none =>
      rw [hrun1] at hok
      have hok2 : (runSync env (rec :: l2) s1).2 = none := hok
      show keyFilter rec.fields.name (runSync env (rec :: l2) s1).1 =
        [(⟨ev, rec.id⟩ : SoftwareVendor)]
      have hs1 : keyFilter rec.fields.name s1 = keyFilter rec.fields.name s := by
        have hpres := runSync_keyFilter_ne env rec.fields.name l1 s hl1
        rw [hrun1] at hpres
        exact hpres
      have hs0 : keyFilter rec.fields.name s = [] := (keyFilter_eq_nil _ s).mpr habs
      cases hp : processRecord env s1 rec with
      | error e =>
        rw [runSync_cons_error env rec l2 s1 e hp] at hok2
        simp at hok2
      | ok p =>
        obtain ⟨s2, calls2⟩ := p
        rw [runSync_cons_ok env rec l2 s1 (s2, calls2) hp] at hok2 ⊢
        obtain ⟨ev2, hen2, hkf⟩ := processRecord_keyFilter_eq env s1 rec s2 calls2 hp
        rw [hen] at hen2
        injection hen2 with he
        have hev : ev = ev2 := congrArg Prod.fst he
        have hafter : keyFilter rec.fields.name s2 = [(⟨ev, rec.id⟩ : SoftwareVendor)] := by
          rw [hkf, hs1, hs0, ← hev]
          rfl
        have hl2p := runSync_keyFilter_ne env rec.fields.name l2 s2 hl2
        rw [hl2p, hafter]

/-- Witness for c1_upsert_correct: the Acme fixture of the spec.  An
empty store and the single remote record with id recXYZ, name Acme,
status active: after the run the store holds exactly one row with
name Acme, status active and linkage recXYZ. -/
theorem c1_upsert_correct_witness :
    enrichVendor ⟨.ok 7, .ok 3, .ok 4, .ok [], .ok 9⟩ (decodeVendor { RawVendorFields.empty with name := some "Acme", status := some "active" }) =
      .ok (decodeVendor { RawVendorFields.empty with name := some "Acme", status := some "active" }, [])
    ∧ (refresh_software_vendors ⟨.ok 7, .ok 3, .ok 4, .ok [], .ok 9⟩ ([] ++ (⟨"recXYZ", decodeVendor { RawVendorFields.empty with name := some "Acme", status := some "active" }⟩ : VendorRecord) :: []) []).2 = none
    ∧ keyFilter (VendorRecord.mk "recXYZ" (decodeVendor { RawVendorFields.empty with name := some "Acme", status := some "active" })).fields.name
        (refresh_software_vendors ⟨.ok 7, .ok 3, .ok 4, .ok [], .ok 9⟩ ([] ++ (⟨"recXYZ", decodeVendor { RawVendorFields.empty with name := some "Acme", status := some "active" }⟩ : VendorRecord) :: []) []).1 =
        [(⟨decodeVendor { RawVendorFields.empty with name := some "Acme", status := some "active" }, "recXYZ"⟩ : SoftwareVendor)] :=
  ⟨by decide, by decide,
   c1_upsert_correct ⟨.ok 7, .ok 3, .ok 4, .ok [], .ok 9⟩ [] []
     ⟨"recXYZ", decodeVendor { RawVendorFields.empty with name := some "Acme", status := some "active" }⟩ []
     (decodeVendor { RawVendorFields.empty with name := some "Acme", status := some "active" })
     []
     (by simp) (by simp) (by simp) (by decide) (by decide)⟩

theorem processRecord_nodup (env : Env) (s : Store) (rec : VendorRecord)
    (s2 : Store) (calls : List EnrichCall)
    (h : processRecord env s rec = .ok (s2, calls))
    (hnd : (storeNames s).Nodup) : (storeNames s2).Nodup := by
  by_cases hex : ∃ r ∈ s, r.fields.name = rec.fields.name
  · rw [processRecord_names_present env s rec s2 calls h hex]
    exact hnd
  · push_neg at hex
    rw [processRecord_names_absent env s rec s2 calls h hex]
    refine List.Nodup.append hnd (List.nodup_singleton _) ?_
    intro x hx hx1
    simp at hx1
    subst hx1
    obtain ⟨row, hrow, hrown⟩ := (mem_storeNames s _).mp hx
    exact hex row hrow hrown

theorem processRecord_link (env : Env) (s : Store) (rec : VendorRecord)
    (s2 : Store) (calls : List EnrichCall)
    (h : processRecord env s rec = .ok (s2, calls))
    (hnd : (storeNames s).Nodup) (hid : rec.id ≠ "") :
    ∀ row ∈ s2, row.fields.name = rec.fields.name → row.airtable_record_id ≠ "" := by
  obtain ⟨ev, hen⟩ := processRecord_ok_enrich env s rec s2 calls h
  by_cases hex : ∃ r ∈ s, r.fields.name = rec.fields.name
  · obtain ⟨p, h0, q, hs, hp, hh⟩ := exists_first_key _ s hex
    subst hs
    rw [processRecord_update env rec ev calls p h0 q hp hh hen] at h
    injection h with h1
    have hs2 : s2 = p ++ (⟨ev, if h0.airtable_record_id = "" then rec.id
        else h0.airtable_record_id⟩ : SoftwareVendor) :: q := (congrArg Prod.fst h1).symm
    subst hs2
    intro row hrow hname
    rcases List.mem_append.mp hrow with hmem | hmem
    · exact absurd hname (hp row hmem)
    · rcases List.mem_cons.mp hmem with hmem1 | hmem1
      · subst hmem1
        by_cases hl : h0.airtable_record_id = "" <;> simp [hl, hid]
      · exfalso
        have hq : rec.fields.name ∉ storeNames q := by
          have hsplit : storeNames (p ++ h0 :: q) =
              storeNames p ++ h0.fields.name :: storeNames q := by
            simp [storeNames]
          rw [hsplit] at hnd
          have h2 := (List.nodup_append.mp hnd).2.1
          rw [hh] at h2
          exact (List.nodup_cons.mp h2).1
        exact hq ((mem_storeNames q _).mpr ⟨row, hmem1, hname⟩)
  · push_neg at hex
    rw [processRecord_insert env s rec ev calls hex hen] at h
    injection h with h1
    have hs2 : s2 = s ++ [(⟨ev, rec.id⟩ : SoftwareVendor)] := (congrArg Prod.fst h1).symm
    subst hs2
    intro row hrow hname
    rcases List.mem_append.mp hrow with hmem | hmem
    · exact absurd hname (hex row hmem)
    · rcases List.mem_cons.mp hmem with hmem1 | hmem1
      · subst hmem1
        simpa using hid
      · exact absurd hmem1 (List.not_mem_nil row)

theorem runSync_link_aux (env : Env) :
    ∀ (l : List VendorRecord) (s : Store),
      (∀ rec ∈ l, rec.id ≠ "") → (storeNames s).Nodup →
      (runSync env l s).2 = none →
      ∀ row ∈ (runSync env l s).1,
        (∃ rec ∈ l, rec.fields.name = row.fields.name) →
        row.airtable_record_id ≠ ""
  | [], _, _, _, _, row, _, hex => by
    obtain ⟨r, hr, _⟩ := hex
    exact absurd hr (List.not_mem_nil r)
  | rec :: t, s, hids, hnd, hok, row, hrow, hex => by
    cases hp : processRecord env s rec with
    | error e =>
      rw [runSync_cons_error env rec t s e hp] at hok
      simp at hok
    | ok p =>
      obtain ⟨s2, calls⟩ := p
      rw [runSync_cons_ok env rec t s (s2, calls) hp] at hok hrow
      have hnd2 := processRecord_nodup env s rec s2 calls hp hnd
      by_cases hext : ∃ r ∈ t, r.fields.name = row.fields.name
      · exact runSync_link_aux env t s2
          (fun r hr => hids r (List.mem_cons_of_mem rec hr)) hnd2 hok row hrow hext
      · push_neg at hext
        obtain ⟨r0, hr0, hr0n⟩ := hex
        have hname : rec.fields.name = row.fields.name := by
          rcases List.mem_cons.mp hr0 with h1 | h1
          · rw [← h1]; exact hr0n
          · exact absurd hr0n (hext r0 h1)
        have hpres := runSync_keyFilter_ne env row.fields.name t s2 hext
        have hrowf : row ∈ keyFilter row.fields.name s2 := by
          rw [← hpres]
          exact (mem_keyFilter _ _ row).mpr ⟨hrow, rfl⟩
        have hrow2 : row ∈ s2 := ((mem_keyFilter _ s2 row).mp hrowf).1
        exact processRecord_link env s rec s2 calls hp hnd
          (hids rec (List.mem_cons_self rec t)) row hrow2 hname.symm

/-- C3: while processing one record, if the row resulting from the
upsert has an empty remote-linkage field it is set to the id of the
remote record just processed before the row is persisted (first
conjunct); consequently, after one full successful reconciliation pass
over remote records with nonempty ids, starting from a store whose
natural keys are distinct, every row whose key was touched by the pass
carries a nonempty remote-linkage identifier (second conjunct). -/
theorem c3_linkage_populated (env : Env) (listing : List VendorRecord) (s : Store)
    (hids : ∀ rec ∈ listing, rec.id ≠ "")
    (hnd : (storeNames s).Nodup)
    (hok : (refresh_software_vendors env listing s).2 = none) :
    (∀ (s0 : Store) (rec : VendorRecord) (ev : NewSoftwareVendor) (calls : List EnrichCall),
      enrichVendor env rec.fields = .ok (ev, calls) →
      (upsert_in_db ev s0).1.airtable_record_id = "" →
      processRecord env s0 rec =
        .ok (updateDb { (upsert_in_db ev s0).1 with airtable_record_id := rec.id }
          (upsert_in_db ev s0).2, calls))
    ∧ (∀ row ∈ (refresh_software_vendors env listing s).1,
        (∃ rec ∈ listing, rec.fields.name = row.fields.name) →
        row.airtable_record_id ≠ "") := by
  constructor
  · intro s0 rec ev calls hen hlink
    simp [processRecord, hen, hlink]
  · exact runSync_link_aux env listing s hids hnd hok

/-- Witness for c3_linkage_populated: a two-record listing (Acme and
GitHub) with nonempty remote ids over an empty store. -/
theorem c3_linkage_populated_witness :
    (∀ rec ∈ ([⟨"r1", decodeVendor { RawVendorFields.empty with name := some "Acme" }⟩,
        ⟨"r2", decodeVendor { RawVendorFields.empty with name := some "GitHub" }⟩] :
        List VendorRecord), rec.id ≠ "")
    ∧ (storeNames []).Nodup
    ∧ (refresh_software_vendors ⟨.ok 5, .ok 0, .ok 0, .ok [], .ok 0⟩
        [⟨"r1", decodeVendor { RawVendorFields.empty with name := some "Acme" }⟩,
         ⟨"r2", decodeVendor { RawVendorFields.empty with name := some "GitHub" }⟩] []).2 = none
    ∧ ((∀ (s0 : Store) (rec : VendorRecord) (ev : NewSoftwareVendor) (calls : List EnrichCall),
        enrichVendor ⟨.ok 5, .ok 0, .ok 0, .ok [], .ok 0⟩ rec.fields = .ok (ev, calls) →
        (upsert_in_db ev s0).1.airtable_record_id = "" →
        processRecord ⟨.ok 5, .ok 0, .ok 0, .ok [], .ok 0⟩ s0 rec =
          .ok (updateDb { (upsert_in_db ev s0).1 with airtable_record_id := rec.id }
            (upsert_in_db ev s0).2, calls))
      ∧ (∀ row ∈ (refresh_software_vendors ⟨.ok 5, .ok 0, .ok 0, .ok [], .ok 0⟩
          [⟨"r1", decodeVendor { RawVendorFields.empty with name := some "Acme" }⟩,
           ⟨"r2", decodeVendor { RawVendorFields.empty with name := some "GitHub" }⟩] []).1,
          (∃ rec ∈ ([⟨"r1", decodeVendor { RawVendorFields.empty with name := some "Acme" }⟩,
            ⟨"r2", decodeVendor { RawVendorFields.empty with name := some "GitHub" }⟩] :
            List VendorRecord), rec.fields.name = row.fields.name) →
          row.airtable_record_id ≠ "")) :=
  ⟨by decide, by decide, by decide,
   c3_linkage_populated ⟨.ok 5, .ok 0, .ok 0, .ok [], .ok 0⟩
     [⟨"r1", decodeVendor { RawVendorFields.empty with name := some "Acme" }⟩,
      ⟨"r2", decodeVendor { RawVendorFields.empty with name := some "GitHub" }⟩] []
     (by decide) (by decide) (by decide)⟩

/-- C5: if the enrichment call for the record at one position of the
listing fails while every earlier record processes successfully, the
run aborts there with that error: the resulting store is exactly the
store produced by the records before that position (the failing record
and all later records contribute nothing).  In the model the decode is
total (forgiving) and the store operations are total, so the
enrichment call is the failing step of record processing. -/
theorem c5_failure_propagation (env : Env) (l1 l2 : List VendorRecord)
    (rec : VendorRecord) (s : Store) (e : RunError)
    (hpre : (runSync env l1 s).2 = none)
    (hfail : enrichVendor env rec.fields = .error e) :
    refresh_software_vendors env (l1 ++ rec :: l2) s = ((runSync env l1 s).1, some e) := by
  unfold refresh_software_vendors
  rw [runSync_append env l1 (rec :: l2) s]
  cases hrun1 : runSync env l1 s with
  | mk s1 e1 =>
    cases e1 with
    | some e' => rw [hrun1] at hpre; simp at hpre
    | none =>
      show runSync env (rec :: l2) s1 = (s1, some e)
      exact runSync_cons_error env rec l2 s1 e (processRecord_of_error env s1 rec e hfail)

/-- Witness for c5_failure_propagation: the GitHub enrichment source
fails; an Acme record before it is processed and stored, a Slack record
after it is never processed: the run ends with the GitHub error and
only the Acme write. -/
theorem c5_failure_propagation_witness :
    (runSync ⟨.error (RunError.apiFailure "github down"), .ok 0, .ok 0, .ok [], .ok 0⟩
      [⟨"r1", decodeVendor { RawVendorFields.empty with name := some "Acme" }⟩] []).2 = none
    ∧ enrichVendor ⟨.error (RunError.apiFailure "github down"), .ok 0, .ok 0, .ok [], .ok 0⟩
        (decodeVendor { RawVendorFields.empty with name := some "GitHub" }) =
        .error (RunError.apiFailure "github down")
    ∧ refresh_software_vendors
        ⟨.error (RunError.apiFailure "github down"), .ok 0, .ok 0, .ok [], .ok 0⟩
        ([⟨"r1", decodeVendor { RawVendorFields.empty with name := some "Acme" }⟩] ++
          (⟨"r2", decodeVendor { RawVendorFields.empty with name := some "GitHub" }⟩ : VendorRecord) ::
          [⟨"r3", decodeVendor { RawVendorFields.empty with name := some "Slack" }⟩]) [] =
        ((runSync ⟨.error (RunError.apiFailure "github down"), .ok 0, .ok 0, .ok [], .ok 0⟩
          [⟨"r1", decodeVendor { RawVendorFields.empty with name := some "Acme" }⟩] []).1,
         some (RunError.apiFailure "github down")) :=
  ⟨by decide, by decide,
   c5_failure_propagation ⟨.error (RunError.apiFailure "github down"), .ok 0, .ok 0, .ok [], .ok 0⟩
     [⟨"r1", decodeVendor { RawVendorFields.empty with name := some "Acme" }⟩]
     [⟨"r3", decodeVendor { RawVendorFields.empty with name := some "Slack" }⟩]
     ⟨"r2", decodeVendor { RawVendorFields.empty with name := some "GitHub" }⟩ []
     (RunError.apiFailure "github down") (by decide) (by decide)⟩

/-! ### RFD loader theorems (claim C9) -/

theorem btreeInsert_mem_sub : ∀ (m : List (Int × RFD)) (k : Int) (v : RFD) (e : Int × RFD),
    e ∈ btreeInsert k v m → e = (k, v) ∨ e ∈ m
  | [], k, v, e, h => by
    simp [btreeInsert] at h
    exact Or.inl h
  | (k', v') :: t, k, v, e, h => by
    by_cases h1 : k < k'
    · simp only [btreeInsert] at h
      rw [if_pos h1] at h
      rcases List.mem_cons.mp h with h2 | h2
      · exact Or.inl h2
      · exact Or.inr h2
    · by_cases h2 : k = k'
      · simp only [btreeInsert] at h
        rw [if_neg h1, if_pos h2] at h
        rcases List.mem_cons.mp h with h3 | h3
        · exact Or.inl h3
        · exact Or.inr (List.mem_cons_of_mem _ h3)
      · simp only [btreeInsert] at h
        rw [if_neg h1, if_neg h2] at h
        rcases List.mem_cons.mp h with h3 | h3
        · exact Or.inr (by rw [h3]; exact List.mem_cons_self _ t)
        · rcases btreeInsert_mem_sub t k v e h3 with h4 | h4
          · exact Or.inl h4
          · exact Or.inr (List.mem_cons_of_mem _ h4)

theorem btreeInsert_mem_self : ∀ (m : List (Int × RFD)) (k : Int) (v : RFD),
    (k, v) ∈ btreeInsert k v m
  | [], k, v => by simp [btreeInsert]
  | (k', v') :: t, k, v => by
    by_cases h1 : k < k'
    · simp only [btreeInsert]
      rw [if_pos h1]
      exact List.mem_cons_self _ _
    · by_cases h2 : k = k'
      · simp only [btreeInsert]
        rw [if_neg h1, if_pos h2]
        exact List.mem_cons_self _ _
      · simp only [btreeInsert]
        rw [if_neg h1, if_neg h2]
        exact List.mem_cons_of_mem _ (btreeInsert_mem_self t k v)

theorem btreeInsert_mem_preserve : ∀ (m : List (Int × RFD)) (k : Int) (v : RFD)
    (e : Int × RFD), e ∈ m → e.1 ≠ k → e ∈ btreeInsert k v m
  | [], _, _, _, he, _ => absurd he (List.not_mem_nil _)
  | (k', v') :: t, k, v, e, he, hne => by
    by_cases h1 : k < k'
    · simp only [btreeInsert]
      rw [if_pos h1]
      exact List.mem_cons_of_mem _ he
    · by_cases h2 : k = k'
      · simp only [btreeInsert]
        rw [if_neg h1, if_pos h2]
        rcases List.mem_cons.mp he with h3 | h3
        · exact absurd (by rw [h3, ← h2]) hne
        · exact List.mem_cons_of_mem _ h3
      · simp only [btreeInsert]
        rw [if_neg h1, if_neg h2]
        rcases List.mem_cons.mp he with h3 | h3
        · rw [h3]; exact List.mem_cons_self _ _
        · exact List.mem_cons_of_mem _ (btreeInsert_mem_preserve t k v e h3 hne)

theorem btreeInsert_pairwise : ∀ (m : List (Int × RFD)) (k : Int) (v : RFD),
    m.Pairwise (fun a b => a.1 < b.1) →
    (btreeInsert k v m).Pairwise (fun a b => a.1 < b.1)
  | [], k, v, _ => by simp [btreeInsert]
  | (k', v') :: t, k, v, hp => by
    have hhead : ∀ e ∈ t, k' < e.1 := (List.pairwise_cons.mp hp).1
    have htail : t.Pairwise (fun a b => a.1 < b.1) := (List.pairwise_cons.mp hp).2
    by_cases h1 : k < k'
    · simp only [btreeInsert]
      rw [if_pos h1]
      refine List.pairwise_cons.mpr ⟨?_, hp⟩
      intro e he
      rcases List.mem_cons.mp he with h2 | h2
      · rw [h2]; exact h1
      · exact lt_trans h1 (hhead e h2)
    · by_cases h2 : k = k'
      · simp only [btreeInsert]
        rw [if_neg h1, if_pos h2]
        refine List.pairwise_cons.mpr ⟨?_, htail⟩
        intro e he
        show k < e.1
        rw [h2]
        exact hhead e he
      · simp only [btreeInsert]
        rw [if_neg h1, if_neg h2]
        refine List.pairwise_cons.mpr ⟨?_, btreeInsert_pairwise t k v htail⟩
        intro e he
        rcases btreeInsert_mem_sub t k v e he with h3 | h3
        · rw [h3]
          exact lt_of_le_of_ne (not_lt.mp h1) (Ne.symm h2)
        · exact hhead e h3

theorem rfdRowStep_ok (rec : List String) (hlen : 5 ≤ rec.length)
    (hkey : (parse_i32 ((rec.get? 0).getD "")).isSome = true) (m : List (Int × RFD)) :
    rfdRowStep m (.ok rec) = .ok (btreeInsert (rowKey rec) (rowRFD rec) m) := by
  cases h0 : rec.get? 0 with
  | none => exact absurd (List.get?_eq_none.mp h0) (by omega)
  | some c0 =>
    cases h1 : rec.get? 1 with
    | none => exact absurd (List.get?_eq_none.mp h1) (by omega)
    | some c1 =>
      cases h2 : rec.get? 2 with
      | none => exact absurd (List.get?_eq_none.mp h2) (by omega)
      | some c2 =>
        cases h3 : rec.get? 3 with
        | none => exact absurd (List.get?_eq_none.mp h3) (by omega)
        | some c3 =>
          cases h4 : rec.get? 4 with
          | none => exact absurd (List.get?_eq_none.mp h4) (by omega)
          | some c4 =>
            rw [h0] at hkey
            simp only [Option.getD_some] at hkey
            cases hp : parse_i32 c0 with
            | none => rw [hp] at hkey; simp at hkey
            | some key =>
              have hrk : rowKey rec = key := by
                unfold rowKey
                rw [h0]
                simp only [Option.getD_some]
                rw [hp]
                rfl
              have hrf : rowRFD rec = ⟨c0, c1, c2, c3, c4⟩ := by
                unfold rowRFD
                rw [h0, h1, h2, h3, h4]
                rfl
              rw [hrk, hrf]
              simp only [List.get?_eq_getElem?] at h0 h1 h2 h3 h4
              simp [rfdRowStep, h0, h1, h2, h3, h4, hp]

theorem rfdsFold_fail : ∀ (rows : List (Except Unit (List String)))
    (m : List (Int × RFD)),
    (∃ r ∈ rows, ∃ e0 : RfdError, ∀ m', rfdRowStep m' r = .error e0) →
    ∃ e, rfdsFold rows m = .error e
  | [], _, h => absurd h (by simp)
  | r :: rest, m, h => by
    cases hstep : rfdRowStep m r with
    | error e => exact ⟨e, by simp [rfdsFold, hstep]⟩
    | ok m2 =>
      obtain ⟨r0, hr0, e0, he0⟩ := h
      rcases List.mem_cons.mp hr0 with hh | hh
      · subst hh
        rw [he0 m] at hstep
        cases hstep
      · obtain ⟨e, he⟩ := rfdsFold_fail rest m2 ⟨r0, hh, e0, he0⟩
        exact ⟨e, by simp [rfdsFold, hstep, he]⟩

theorem rfdsFold_ok : ∀ (rows : List (Except Unit (List String)))
    (m : List (Int × RFD)),
    (∀ r ∈ rows, ∃ rec, r = .ok rec ∧
      ∀ m', rfdRowStep m' r = .ok (btreeInsert (rowKey rec) (rowRFD rec) m')) →
    rows.Pairwise (fun a b => rowResultKey a ≠ rowResultKey b) →
    m.Pairwise (fun a b => a.1 < b.1) →
    ∃ mf, rfdsFold rows m = .ok mf
      ∧ mf.Pairwise (fun a b => a.1 < b.1)
      ∧ (∀ e ∈ m, (∀ r ∈ rows, ∀ rec : List String, r = .ok rec → e.1 ≠ rowKey rec) → e ∈ mf)
      ∧ (∀ r ∈ rows, ∀ rec : List String, r = .ok rec → (rowKey rec, rowRFD rec) ∈ mf)
      ∧ (∀ e ∈ mf, e ∈ m ∨ ∃ rec, Except.ok rec ∈ rows ∧ e = (rowKey rec, rowRFD rec))
  | [], m, _, _, hm => by
    refine ⟨m, rfl, hm, ?_, ?_, ?_⟩
    · intro e he _; exact he
    · intro r hr; exact absurd hr (List.not_mem_nil r)
    · intro e he; exact Or.inl he
  | r :: rest, m, hrows, hdist, hm => by
    obtain ⟨rec, hre, hstep⟩ := hrows r (List.mem_cons_self r rest)
    have hm2 : (btreeInsert (rowKey rec) (rowRFD rec) m).Pairwise (fun a b => a.1 < b.1) :=
      btreeInsert_pairwise m _ _ hm
    obtain ⟨mf, hmf, hsort, hpres, hmem, horig⟩ :=
      rfdsFold_ok rest (btreeInsert (rowKey rec) (rowRFD rec) m)
        (fun r' hr' => hrows r' (List.mem_cons_of_mem r hr'))
        (List.pairwise_cons.mp hdist).2 hm2
    have hdisthead : ∀ r' ∈ rest, rowResultKey r ≠ rowResultKey r' :=
      (List.pairwise_cons.mp hdist).1
    have hkeyr : rowResultKey r = rowKey rec := by rw [hre]; rfl
    refine ⟨mf, ?_, hsort, ?_, ?_, ?_⟩
    · simp [rfdsFold, hstep m, hmf]
    · intro e he hcond
      have hne : e.1 ≠ rowKey rec := hcond r (List.mem_cons_self r rest) rec hre
      refine hpres e (btreeInsert_mem_preserve m _ _ e he hne) ?_
      intro r' hr' rec' hre'
      exact hcond r' (List.mem_cons_of_mem r hr') rec' hre'
    · intro r' hr' rec' hre'
      rcases List.mem_cons.mp hr' with hh | hh
      · subst hh
        have hrec : rec' = rec := by
          rw [hre] at hre'
          injection hre' with hh2
          exact hh2.symm
        subst hrec
        refine hpres _ (btreeInsert_mem_self m _ _) ?_
        intro r2 hr2 rec2 hre2
        have hk2 : rowResultKey r2 = rowKey rec2 := by rw [hre2]; rfl
        have := hdisthead r2 hr2
        rw [hkeyr, hk2] at this
        exact this
      · exact hmem r' hh rec' hre'
    · intro e he
      rcases horig e he with hh | hh
      · rcases btreeInsert_mem_sub m _ _ e hh with h2 | h2
        · exact Or.inr ⟨rec, by rw [← hre]; exact List.mem_cons_self r rest, h2⟩
        · exact Or.inl h2
      · obtain ⟨rec2, hrec2, heq⟩ := hh
        exact Or.inr ⟨rec2, List.mem_cons_of_mem r hrec2, heq⟩

/-- C9: the tabular-reference loader fails fatally on non-UTF-8 content,
on any CSV record that does not parse, and on any record whose leading
key column does not parse as an i32; when every record parses, has the
five indexed columns and a numeric leading key, it builds a mapping
ordered strictly by the numeric key whose entries are exactly the
fixed-field records built from the rows (stated here for rows with
pairwise-distinct keys, since a later duplicate key overwrites). -/
theorem c9_rfds_loader (csvRecords : String → List (Except Unit (List String)))
    (s : String) :
    (get_rfds_from_repo (.ok none) csvRecords = .error RfdError.notUtf8)
    ∧ (Except.error () ∈ csvRecords s →
        ∃ e, get_rfds_from_repo (.ok (some s)) csvRecords = .error e)
    ∧ (∀ (rec : List String) (c0 : String), Except.ok rec ∈ csvRecords s →
        rec.get? 0 = some c0 → parse_i32 c0 = none →
        ∃ e, get_rfds_from_repo (.ok (some s)) csvRecords = .error e)
    ∧ ((∀ r ∈ csvRecords s, ∃ rec : List String, r = Except.ok rec ∧ 5 ≤ rec.length ∧
          (parse_i32 ((rec.get? 0).getD "")).isSome = true) →
        (csvRecords s).Pairwise (fun a b => rowResultKey a ≠ rowResultKey b) →
        ∃ m, get_rfds_from_repo (.ok (some s)) csvRecords = .ok m
          ∧ m.Pairwise (fun a b => a.1 < b.1)
          ∧ (∀ r ∈ csvRecords s, ∀ rec : List String, r = Except.ok rec →
              (rowKey rec, rowRFD rec) ∈ m)
          ∧ (∀ e ∈ m, ∃ rec, Except.ok rec ∈ csvRecords s ∧
              e = (rowKey rec, rowRFD rec))) := by
  refine ⟨rfl, ?_, ?_, ?_⟩
  · intro hmem
    obtain ⟨e, he⟩ := rfdsFold_fail (csvRecords s) []
      ⟨Except.error (), hmem, RfdError.csvParseError, fun m' => rfl⟩
    exact ⟨e, by simp [get_rfds_from_repo, he]⟩
  · intro rec c0 hmem h0 hp
    have h0' := h0
    simp only [List.get?_eq_getElem?] at h0'
    obtain ⟨e, he⟩ := rfdsFold_fail (csvRecords s) []
      ⟨Except.ok rec, hmem, RfdError.keyNotNumeric, fun m' => by simp [rfdRowStep, h0', hp]⟩
    exact ⟨e, by simp [get_rfds_from_repo, he]⟩
  · intro hrows hdist
    obtain ⟨mf, hmf, hsort, _, hmem, horig⟩ := rfdsFold_ok (csvRecords s) []
      (fun r hr => by
        obtain ⟨rec, hre, hlen, hkey⟩ := hrows r hr
        exact ⟨rec, hre, fun m' => by rw [hre]; exact rfdRowStep_ok rec hlen hkey m'⟩)
      hdist (by simp)
    refine ⟨mf, by simp [get_rfds_from_repo, hmf], hsort, hmem, ?_⟩
    intro e he
    rcases horig e he with hh | hh
    · exact absurd hh (List.not_mem_nil e)
    · exact hh

/-- Witness for c9_rfds_loader over sampleCsvRows: non-UTF-8 content is
fatal; the parse-error input and the non-numeric-key input abort; the
well-formed two-record input (keys 2 and 1) yields the key-ordered map
containing exactly its two rows. -/
theorem c9_rfds_loader_witness :
    get_rfds_from_repo (.ok none) sampleCsvRows = .error RfdError.notUtf8
    ∧ (Except.error () ∈ sampleCsvRows "bad"
       ∧ ∃ e, get_rfds_from_repo (.ok (some "bad")) sampleCsvRows = .error e)
    ∧ ((Except.ok ["x", "t", "l", "st", "d"] ∈ sampleCsvRows "nonnum"
        ∧ (["x", "t", "l", "st", "d"] : List String).get? 0 = some "x"
        ∧ parse_i32 "x" = none)
       ∧ ∃ e, get_rfds_from_repo (.ok (some "nonnum")) sampleCsvRows = .error e)
    ∧ ((∀ r ∈ sampleCsvRows "good", ∃ rec : List String, r = Except.ok rec ∧ 5 ≤ rec.length ∧
          (parse_i32 ((rec.get? 0).getD "")).isSome = true)
       ∧ (sampleCsvRows "good").Pairwise (fun a b => rowResultKey a ≠ rowResultKey b)
       ∧ ∃ m, get_rfds_from_repo (.ok (some "good")) sampleCsvRows = .ok m
          ∧ m.Pairwise (fun a b => a.1 < b.1)
          ∧ (∀ r ∈ sampleCsvRows "good", ∀ rec : List String, r = Except.ok rec →
              (rowKey rec, rowRFD rec) ∈ m)
          ∧ (∀ e ∈ m, ∃ rec, Except.ok rec ∈ sampleCsvRows "good" ∧
              e = (rowKey rec, rowRFD rec))) := by
  have hlist : sampleCsvRows "good" =
      [Except.ok ["2", "t2", "l2", "s2", "d2"], Except.ok ["1", "t1", "l1", "s1", "d1"]] := by
    decide
  have hgood : ∀ r ∈ sampleCsvRows "good", ∃ rec : List String, r = Except.ok rec ∧
      5 ≤ rec.length ∧ (parse_i32 ((rec.get? 0).getD "")).isSome = true := by
    rw [hlist]
    intro r hr
    rcases List.mem_cons.mp hr with h | h
    · exact ⟨["2", "t2", "l2", "s2", "d2"], h, by decide, by decide⟩
    · rcases List.mem_cons.mp h with h2 | h2
      · exact ⟨["1", "t1", "l1", "s1", "d1"], h2, by decide, by decide⟩
      · exact absurd h2 (List.not_mem_nil r)
  refine ⟨(c9_rfds_loader sampleCsvRows "good").1,
    ⟨by decide, (c9_rfds_loader sampleCsvRows "bad").2.1 (by decide)⟩,
    ⟨⟨by decide, by decide, by decide⟩,
     (c9_rfds_loader sampleCsvRows "nonnum").2.2.1 ["x", "t", "l", "st", "d"] "x"
       (by decide) (by decide) (by decide)⟩,
    hgood, by decide,
    (c9_rfds_loader sampleCsvRows "good").2.2.2 hgood (by decide)⟩
